import Mathlib

/-!
The component registry of meshkit (`models/meshmodel/core/v1alpha1/component.go`).

A shallow embedding of `CreateComponent`, `GetMeshModelComponents`,
`GetComponentDefinition` and `GetComponentDefinitionDB`, together with the
parts of the libraries they call (`github.com/google/uuid`, `encoding/json`,
the gorm query builder over an SQL engine), followed by theorems about them.

Conventions of the embedding

* A Go `[]byte` that holds JSON text is represented by the document it spells
  (`Payload.text`), any other byte string by `Payload.raw`.  The printer and the
  scanner of `encoding/json` are thereby taken as inverse to each other; what is
  modelled is the mapping between Go values and JSON documents.
* A Go `map[string]interface{}` is `Option (List (String × GoVal))`: `none` is
  the nil map, and the entries of a non-nil map are listed in increasing key
  order, which is also the order in which `encoding/json` emits them.
* A Go `string` is a `String`, so only valid UTF-8 text is represented.
* The database is two tables plus the package-level `modelCreationLock`; engine
  failures are injected per call through `Faults`. Rows are stored as handed to
  `Create`; the timestamps gorm fills in are left out.
* `time.Time` is a natural number, `0` being the zero time.
-/

/-! ## `github.com/google/uuid` -/

/-- A `uuid.UUID`, a `[16]byte` array, as the list of its bytes. -/
structure UUID where
  bytes : List Nat
  deriving DecidableEq, Repr

/-- The zero value `uuid.UUID{}`. -/
def UUID.Nil : UUID := ⟨List.replicate 16 0⟩

namespace uuid

/-- Go `copy(uuid[:], s)` into a zeroed 16-byte array. -/
def copy16 (s : List Nat) : List Nat := (s ++ List.replicate 16 0).take 16

/-- The statement `uuid[6] = (uuid[6] & 0x0f) | (version << 4)`. -/
def setVersion (version : Nat) (b : List Nat) : List Nat :=
  b.set 6 (b.getD 6 0 % 16 + (version % 16) * 16)

/-- The statement `uuid[8] = (uuid[8] & 0x3f) | 0x80`. -/
def setVariant (b : List Nat) : List Nat :=
  b.set 8 (b.getD 8 0 % 64 + 128)

/-- The function `uuid.New()`: a version-4 identifier built from 16 bytes `rnd`
read from the random source. -/
def New (rnd : List Nat) : UUID :=
  ⟨setVariant (setVersion 4 (copy16 rnd))⟩

/-- The function `uuid.NewSHA1(space, data)`: the SHA-1 digest of `space ++ data`
(the digest function `sha1` is a parameter), truncated to 16 bytes, stamped
with version 5. -/
def NewSHA1 (sha1 : List Nat → List Nat) (space : UUID) (data : List Nat) : UUID :=
  ⟨setVariant (setVersion 5 (copy16 (sha1 (space.bytes ++ data))))⟩

end uuid

/-! ## `encoding/json` -/

/-- A Go `float64`; a finite one is given by its exact value. Rounding to 53
bits is left out: every rational stands for a finite value. -/
inductive Float64 where
  | finite (q : Rat)
  | nan
  | inf (neg : Bool)

/-- The dynamic values an `interface{}` can hold, as far as `encoding/json`
distinguishes them. `chan` stands for the kinds the encoder rejects (channels,
functions, complex numbers). -/
inductive GoVal where
  | nil
  | bool (b : Bool)
  | int (i : Int)
  | float64 (x : Float64)
  | str (s : String)
  | nilSlice
  | slice (xs : List GoVal)
  | nilMap
  | map (kvs : List (String × GoVal))
  | chan

/-- A Go `map[string]interface{}`; `none` is the nil map. -/
abbrev GoMap := Option (List (String × GoVal))

/-- A JSON document. A number is given by the value of its literal. -/
inductive JSON where
  | null
  | bool (b : Bool)
  | number (q : Rat)
  | string (s : String)
  | array (xs : List JSON)
  | object (kvs : List (String × JSON))

/-- A Go `[]byte`: `text j` is the text of the JSON document `j`; `raw b` is a
byte string `b` that is not the text of any JSON document (`raw []` is the
nil or empty slice). -/
inductive Payload where
  | text (j : JSON)
  | raw (b : List Nat)

/-- The errors of `encoding/json`. -/
inductive JsonErr where
  | unsupportedType
  | unsupportedValue
  | malformed
  | typeMismatch
  deriving DecidableEq, Repr

namespace json

mutual
/-- The encoder of `json.Marshal` for a value held in an `interface{}`. -/
def encode : GoVal → Except JsonErr JSON
  | .nil => .ok .null
  | .bool b => .ok (.bool b)
  | .int i => .ok (.number i)
  | .float64 (.finite q) => .ok (.number q)
  | .float64 .nan => .error .unsupportedValue
  | .float64 (.inf _) => .error .unsupportedValue
  | .str s => .ok (.string s)
  | .nilSlice => .ok .null
  | .slice xs =>
    match encodeElems xs with
    | .ok js => .ok (.array js)
    | .error e => .error e
  | .nilMap => .ok .null
  | .map kvs =>
    match encodeFields kvs with
    | .ok js => .ok (.object js)
    | .error e => .error e
  | .chan => .error .unsupportedType
/-- The encoder on the elements of a slice. -/
def encodeElems : List GoVal → Except JsonErr (List JSON)
  | [] => .ok []
  | v :: vs =>
    match encode v with
    | .error e => .error e
    | .ok j =>
      match encodeElems vs with
      | .error e => .error e
      | .ok js => .ok (j :: js)
/-- The encoder on the entries of a map, in key order. -/
def encodeFields : List (String × GoVal) → Except JsonErr (List (String × JSON))
  | [] => .ok []
  | (k, v) :: kvs =>
    match encode v with
    | .error e => .error e
    | .ok j =>
      match encodeFields kvs with
      | .error e => .error e
      | .ok js => .ok ((k, j) :: js)
end

/-- Lexicographic order on code points, the order of Go string comparison. -/
def lexLt : List Nat → List Nat → Bool
  | _, [] => false
  | [], _ :: _ => true
  | a :: as, b :: bs => if a < b then true else if b < a then false else lexLt as bs

/-- Go `k1 < k2` on strings. -/
def keyLt (k1 k2 : String) : Bool :=
  lexLt (k1.data.map Char.toNat) (k2.data.map Char.toNat)

/-- The map assignment `m[k] = v`. -/
def insertKV (k : String) (v : GoVal) : List (String × GoVal) → List (String × GoVal)
  | [] => [(k, v)]
  | (k1, v1) :: rest =>
    if k = k1 then (k, v) :: rest
    else if keyLt k k1 then (k, v) :: (k1, v1) :: rest
    else (k1, v1) :: insertKV k v rest

mutual
/-- The decoder of `json.Unmarshal` into an `interface{}`: numbers become
`float64`, arrays `[]interface{}`, objects `map[string]interface{}`. A number
keeps the value of its literal: the rounding of `strconv.ParseFloat` to the
nearest `float64`, and its range error on a literal beyond the `float64`
range, are left out. -/
def decode : JSON → GoVal
  | .null => .nil
  | .bool b => .bool b
  | .number q => .float64 (.finite q)
  | .string s => .str s
  | .array xs => .slice (decodeElems xs)
  | .object kvs => .map (decodeFields kvs [])
/-- The decoder on the elements of an array. -/
def decodeElems : List JSON → List GoVal
  | [] => []
  | j :: js => decode j :: decodeElems js
/-- The decoder on the members of an object: each member is assigned into the
destination map, in the order of the text. -/
def decodeFields : List (String × JSON) → List (String × GoVal) → List (String × GoVal)
  | [], dst => dst
  | (k, j) :: rest, dst => decodeFields rest (insertKV k (decode j) dst)
end

/-- The call `json.Marshal(m)` for `m` of type `map[string]interface{}`; on
failure the byte slice is nil. -/
def Marshal (m : GoMap) : Payload × Option JsonErr :=
  match m with
  | none => (.text .null, none)
  | some kvs =>
    match encodeFields kvs with
    | .ok js => (.text (.object js), none)
    | .error e => (.raw [], some e)

/-- The call `json.Unmarshal(data, &dst)` for `dst` of type
`map[string]interface{}`; returns the new value of `dst` and the error.
Text that is not JSON leaves `dst` alone (syntax error), `null` sets `dst`
to nil, an object is merged into `dst` (allocating it if nil), any other
document leaves `dst` alone (type error). -/
def Unmarshal (data : Payload) (dst : GoMap) : GoMap × Option JsonErr :=
  match data with
  | .raw _ => (dst, some .malformed)
  | .text .null => (none, none)
  | .text (.object kvs) => (some (decodeFields kvs (dst.getD [])), none)
  | .text _ => (dst, some .typeMismatch)

end json

/-! ## Records of `component.go` -/

/-- Go `time.Time`. -/
abbrev Time := Nat

/-- Go `type TypeMeta struct`. -/
structure TypeMeta where
  Kind : String
  APIVersion : String
  deriving DecidableEq, Repr

/-- Go `type ComponentFormat string`. -/
abbrev ComponentFormat := String

/-- Modelled from the spec: the struct `Model` of package `v1alpha1` is declared
in a file outside the fragment. Section 3 of the specification gives it an
identifier and the attributes name, version and metadata; `component.go`
reads `model.ID` and the columns `models.id`, `models.name`,
`models.version`. -/
structure Model where
  ID : UUID
  Name : String
  Version : String
  Metadata : String
  deriving DecidableEq, Repr

/-- Go `type ComponentDefinition struct`. -/
structure ComponentDefinition extends TypeMeta where
  ID : UUID
  DisplayName : String
  Format : ComponentFormat
  Metadata : GoMap
  Model : Model
  Schema : String
  CreatedAt : Time
  UpdatedAt : Time

/-- Go `type ComponentDefinitionDB struct`. -/
structure ComponentDefinitionDB extends TypeMeta where
  ID : UUID
  ModelID : UUID
  DisplayName : String
  Format : ComponentFormat
  Metadata : Payload
  Schema : String
  CreatedAt : Time
  UpdatedAt : Time

/-- The zero value of `Model`. -/
def Model.zero : Model := ⟨UUID.Nil, "", "", ""⟩

/-- The zero value of `ComponentDefinition` (a fresh named result `c`). -/
def ComponentDefinition.zero : ComponentDefinition :=
  { Kind := "", APIVersion := "", ID := UUID.Nil, DisplayName := "", Format := "",
    Metadata := none, Model := Model.zero, Schema := "", CreatedAt := 0, UpdatedAt := 0 }

/-- The zero value of `ComponentDefinitionDB` (a fresh named result `cmd`). -/
def ComponentDefinitionDB.zero : ComponentDefinitionDB :=
  { Kind := "", APIVersion := "", ID := UUID.Nil, ModelID := UUID.Nil, DisplayName := "",
    Format := "", Metadata := .raw [], Schema := "", CreatedAt := 0, UpdatedAt := 0 }

/-- The method `(cmd *ComponentDefinitionDB) GetComponentDefinition(model)`. -/
def ComponentDefinitionDB.GetComponentDefinition (cmd : ComponentDefinitionDB)
    (model : Model) : ComponentDefinition :=
  let c := ComponentDefinition.zero
  let c := { c with ID := cmd.ID }
  let c := { c with toTypeMeta := cmd.toTypeMeta }
  let c := { c with Format := cmd.Format }
  let c := { c with DisplayName := cmd.DisplayName }
  let c := if c.Metadata.isNone then { c with Metadata := some [] } else c
  let c := { c with Metadata := (json.Unmarshal cmd.Metadata c.Metadata).1 }
  let c := { c with Schema := cmd.Schema }
  { c with Model := model }

/-- The method `(c *ComponentDefinition) GetComponentDefinitionDB()`. -/
def ComponentDefinition.GetComponentDefinitionDB (c : ComponentDefinition) :
    ComponentDefinitionDB :=
  let cmd := ComponentDefinitionDB.zero
  let cmd := { cmd with ID := c.ID }
  let cmd := { cmd with toTypeMeta := c.toTypeMeta }
  let cmd := { cmd with Format := c.Format }
  let cmd := { cmd with Metadata := (json.Marshal c.Metadata).1 }
  let cmd := { cmd with DisplayName := c.DisplayName }
  { cmd with Schema := c.Schema }

/-! ## The storage engine behind `database.Handler` -/

/-- The errors a gorm call reports. `engine code` is any engine-level failure
other than the two named ones. -/
inductive DbErr where
  | recordNotFound
  | duplicateKey
  | engine (code : Nat)
  deriving DecidableEq, Repr

/-- A Go `error` value returned by `CreateComponent`. -/
inductive GoError where
  | json (e : JsonErr)
  | db (e : DbErr)
  deriving DecidableEq, Repr

/-- A call made on the handle. -/
inductive DbCall where
  | first (id : UUID)
  | createModel (row : Model)
  | createComponent (row : ComponentDefinitionDB)

/-- The tables `models` and `component_definition_dbs`, and the calls made on
the handle so far. `locked` is the mutex `modelCreationLock`, a package-level
variable declared outside the fragment (section 4.2 of the specification: one
process-wide lock scoped to model creation). -/
structure Store where
  models : List Model
  components : List ComponentDefinitionDB
  locked : Bool
  calls : List DbCall

/-- Engine failures injected into the three storage calls of one
`CreateComponent`; `none` lets the call run against the tables. -/
structure Faults where
  first : Option Nat
  createModel : Option Nat
  createComponent : Option Nat

/-- No injected failure. -/
def Faults.none : Faults := ⟨Option.none, Option.none, Option.none⟩

/-- What `CreateComponent` takes from outside the fragment: the SHA-1 digest
and `json.Marshal` on a `Model` (whose field tags are declared elsewhere). -/
structure Env where
  sha1 : List Nat → List Nat
  marshalModel : Model → Except JsonErr (List Nat)

/-- The call `db.First(&model, "id = ?", id)` on a zero `model`: the row and
the error. -/
def dbFirst (flt : Option Nat) (db : Store) (id : UUID) : Model × Option DbErr × Store :=
  let db1 := { db with calls := db.calls ++ [DbCall.first id] }
  match flt with
  | some code => (Model.zero, some (.engine code), db1)
  | Option.none =>
    match db.models.find? (fun m => m.ID == id) with
    | some m => (m, Option.none, db1)
    | Option.none => (Model.zero, some .recordNotFound, db1)

/-- The call `db.Create(&model)`; `models.id` is the primary key. -/
def dbCreateModel (flt : Option Nat) (db : Store) (row : Model) : Option DbErr × Store :=
  let db1 := { db with calls := db.calls ++ [DbCall.createModel row] }
  match flt with
  | some code => (some (.engine code), db1)
  | Option.none =>
    if db.models.any (fun m => m.ID == row.ID) then (some .duplicateKey, db1)
    else (Option.none, { db1 with models := db.models ++ [row] })

/-- The call `db.Create(&cdb)`; `component_definition_dbs.id` is the primary
key. -/
def dbCreateComponent (flt : Option Nat) (db : Store) (row : ComponentDefinitionDB) :
    Option DbErr × Store :=
  let db1 := { db with calls := db.calls ++ [DbCall.createComponent row] }
  match flt with
  | some code => (some (.engine code), db1)
  | Option.none =>
    if db.components.any (fun r => r.ID == row.ID) then (some .duplicateKey, db1)
    else (Option.none, { db1 with components := db.components ++ [row] })

/-! ## `CreateComponent` -/

/-- Lines 98 to 102 of `CreateComponent`: unlock, build the row, write it. -/
def CreateComponent.finish (flt : Faults) (db : Store) (c : ComponentDefinition)
    (model : Model) : Option (UUID × Option GoError × Store) :=
  let db := { db with locked := false }
  let cdb := c.GetComponentDefinitionDB
  let cdb := { cdb with ModelID := model.ID }
  match dbCreateComponent flt.createComponent db cdb with
  | (err, db) => some (c.ID, err.map GoError.db, db)

/-- The function `CreateComponent(db, c)`. `rnd1` and `rnd2` are the bytes the
two `uuid.New()` calls read. The result is the returned identifier, the
returned error and the store afterwards; `none` means the call never
returns, blocked in `modelCreationLock.Lock()`. -/
def CreateComponent (env : Env) (flt : Faults) (rnd1 rnd2 : List Nat) (db : Store)
    (c : ComponentDefinition) : Option (UUID × Option GoError × Store) :=
  let c := { c with ID := uuid.New rnd1 }
  let tempModelID := uuid.New rnd2
  match env.marshalModel c.Model with
  | .error e => some (UUID.Nil, some (.json e), db)
  | .ok byt =>
    let modelID := uuid.NewSHA1 env.sha1 UUID.Nil byt
    if db.locked then Option.none
    else
      let db := { db with locked := true }
      match dbFirst flt.first db modelID with
      | (model, err, db) =>
        if err ≠ Option.none ∧ err ≠ some DbErr.recordNotFound then
          some (UUID.Nil, err.map GoError.db, db)
        else if model.ID = tempModelID ∨ err = some DbErr.recordNotFound then
          let model := { c.Model with ID := modelID }
          match dbCreateModel flt.createModel db model with
          | (some e, db) => some (UUID.Nil, some (.db e), { db with locked := false })
          | (Option.none, db) => CreateComponent.finish flt db c model
        else CreateComponent.finish flt db c model

/-! ## `GetMeshModelComponents` -/

/-- Go `type ComponentFilter struct`; `SortDir` is the field `Sort`, a reserved
word here. -/
structure ComponentFilter where
  Name : String
  APIVersion : String
  Greedy : Bool
  ModelName : String
  Version : String
  SortDir : String
  OrderOn : String
  Limit : Int
  Offset : Int

/-- The zero value of `ComponentFilter`. -/
def ComponentFilter.zero : ComponentFilter := ⟨"", "", false, "", "", "", "", 0, 0⟩

/-- The five `Where` conditions the function can add. -/
inductive Where where
  | kindLike (pattern : String)
  | kindEq (v : String)
  | apiVersionEq (v : String)
  | modelNameEq (v : String)
  | modelVersionEq (v : String)
  deriving DecidableEq, Repr

/-- Go `clause.OrderByColumn`; `Raw` is set when gorm was handed a string. -/
structure OrderByColumn where
  Name : String
  Raw : Bool
  Desc : Bool
  deriving DecidableEq, Repr

/-- The statement gorm accumulates in `finder`. -/
structure Finder where
  wheres : List Where
  order : Option OrderByColumn
  offset : Int
  limit : Option Int
  deriving DecidableEq, Repr

/-- A row of the join: the embedded `ComponentDefinitionDB` and `Model`. -/
abbrev componentDefinitionWithModel := ComponentDefinitionDB × Model

/-- What the SQL engine decides: whether `LIKE` folds ASCII case (SQLite does),
and how it sorts rows for an `ORDER BY` column, or fails on it. -/
structure Engine where
  likeFoldsCase : Bool
  orderBy : OrderByColumn → List componentDefinitionWithModel →
    Except DbErr (List componentDefinitionWithModel)

/-- The method `finder.Where(cond, arg)`. -/
def Finder.Where (q : Finder) (w : Where) : Finder :=
  { q with wheres := q.wheres ++ [w] }

/-- The method `finder.Order(value)`. -/
def Finder.Order (q : Finder) (o : OrderByColumn) : Finder :=
  { q with order := some o }

/-- The method `finder.Offset(n)`. -/
def Finder.Offset (q : Finder) (n : Int) : Finder :=
  { q with offset := n }

/-- The method `finder.Limit(n)`. -/
def Finder.Limit (q : Finder) (n : Int) : Finder :=
  { q with limit := some n }

/-- The statement built by lines 111 to 136: the join, the conditions and the
ordering. Handed a string, `Order` makes a raw ascending column of it. -/
def whereAndOrder (f : ComponentFilter) : Finder :=
  let finder : Finder := ⟨[], none, 0, none⟩
  let finder :=
    if f.Name ≠ "" then
      if f.Greedy then finder.Where (.kindLike (f.Name ++ "%"))
      else finder.Where (.kindEq f.Name)
    else finder
  let finder := if f.APIVersion ≠ "" then finder.Where (.apiVersionEq f.APIVersion) else finder
  let finder := if f.ModelName ≠ "" then finder.Where (.modelNameEq f.ModelName) else finder
  let finder := if f.Version ≠ "" then finder.Where (.modelVersionEq f.Version) else finder
  if f.OrderOn ≠ "" then
    if f.SortDir = "desc" then finder.Order ⟨f.OrderOn, false, true⟩
    else finder.Order ⟨f.OrderOn, true, false⟩
  else finder

/-- The statement built by lines 111 to 140: `whereAndOrder`, then the offset,
then the limit when it is not zero. -/
def finderOf (f : ComponentFilter) : Finder :=
  let finder := whereAndOrder f
  let finder := finder.Offset f.Offset
  if f.Limit ≠ 0 then finder.Limit f.Limit else finder

/-- The `%` of a `LIKE` pattern: the rest of the pattern matches some suffix. -/
def likeAny (rest : List Char → Bool) : List Char → Bool
  | [] => rest []
  | c :: s => rest (c :: s) || likeAny rest s

/-- One pattern character against one text character. -/
def likeChar (fold : Bool) (p c : Char) : Bool :=
  p == '_' || (if fold then p.toLower == c.toLower else p == c)

/-- SQL `text LIKE pattern` without escape character: `%` matches any
sequence, `_` any one character. -/
def like (fold : Bool) : List Char → List Char → Bool
  | [], s => s.isEmpty
  | p :: ps, s =>
    if p = '%' then likeAny (like fold ps) s
    else
      match s with
      | [] => false
      | c :: cs => likeChar fold p c && like fold ps cs

/-- Whether a joined row satisfies a condition. -/
def Where.holds (eng : Engine) (w : Where) (r : componentDefinitionWithModel) : Bool :=
  match w with
  | .kindLike pattern => like eng.likeFoldsCase pattern.data r.1.Kind.data
  | .kindEq v => r.1.Kind == v
  | .apiVersionEq v => r.1.APIVersion == v
  | .modelNameEq v => r.2.Name == v
  | .modelVersionEq v => r.2.Version == v

/-- The clause `JOIN models ON component_definition_dbs.model_id = models.id`. -/
def joinModels (db : Store) : List componentDefinitionWithModel :=
  db.components.flatMap fun r => (db.models.filter fun m => r.ModelID == m.ID).map fun m => (r, m)

/-- Executing the statement (`finder.Scan`): join, filter, sort, then skip
`offset` rows when it is positive and keep `limit` rows when one is set and
not negative. -/
def Finder.Scan (eng : Engine) (db : Store) (q : Finder) :
    Except DbErr (List componentDefinitionWithModel) :=
  let rows := (joinModels db).filter fun r => q.wheres.all fun w => w.holds eng r
  let sorted : Except DbErr (List componentDefinitionWithModel) :=
    match q.order with
    | none => .ok rows
    | some o => eng.orderBy o rows
  match sorted with
  | .error e => .error e
  | .ok rows =>
    let rows := if 0 < q.offset then rows.drop q.offset.toNat else rows
    match q.limit with
    | none => .ok rows
    | some l => if 0 ≤ l then .ok (rows.take l.toNat) else .ok rows

/-- The function `GetMeshModelComponents(db, f)`. A failed query is printed and
yields no rows. -/
def GetMeshModelComponents (eng : Engine) (db : Store) (f : ComponentFilter) :
    List ComponentDefinition :=
  match (finderOf f).Scan eng db with
  | .error _ => []
  | .ok rows => rows.map fun cm => cm.1.GetComponentDefinition cm.2

/-! ## Concurrent calls of `CreateComponent` -/

/-- Where a running `CreateComponent` stands: the line it executes next, with
the local `model` where it is set. Each storage call and each operation on
`modelCreationLock` is one step. -/
inductive Pc where
  | atLock
  | atFirst
  | atCreateModel
  | atUnlockFailed (e : DbErr)
  | atUnlock (model : Model)
  | atCreateComponent (model : Model)
  | done (id : UUID) (err : Option GoError)

/-- A running call: the locals set on lines 76 to 82, the failures injected
into its storage calls, and its position. -/
structure Thread where
  c : ComponentDefinition
  tempModelID : UUID
  modelID : UUID
  flt : Faults
  pc : Pc

/-- Lines 76 to 83, which touch nothing shared: a call whose model cannot be
serialised has returned already, any other is about to take the lock. -/
def spawn (env : Env) (flt : Faults) (rnd1 rnd2 : List Nat) (c : ComponentDefinition) :
    Thread :=
  let c := { c with ID := uuid.New rnd1 }
  let tempModelID := uuid.New rnd2
  match env.marshalModel c.Model with
  | .error e => ⟨c, tempModelID, UUID.Nil, flt, .done UUID.Nil (some (.json e))⟩
  | .ok byt => ⟨c, tempModelID, uuid.NewSHA1 env.sha1 UUID.Nil byt, flt, .atLock⟩

/-- One step of a call on the shared store: the new position and the store
afterwards; `none` when the call cannot move, blocked in `Lock()` or returned. -/
def Thread.step (t : Thread) (db : Store) : Option (Pc × Store) :=
  match t.pc with
  | .atLock => if db.locked then none else some (.atFirst, { db with locked := true })
  | .atFirst =>
    match dbFirst t.flt.first db t.modelID with
    | (model, err, db) =>
      if err ≠ Option.none ∧ err ≠ some DbErr.recordNotFound then
        some (.done UUID.Nil (err.map GoError.db), db)
      else if model.ID = t.tempModelID ∨ err = some DbErr.recordNotFound then
        some (.atCreateModel, db)
      else some (.atUnlock model, db)
  | .atCreateModel =>
    match dbCreateModel t.flt.createModel db { t.c.Model with ID := t.modelID } with
    | (some e, db) => some (.atUnlockFailed e, db)
    | (Option.none, db) => some (.atUnlock { t.c.Model with ID := t.modelID }, db)
  | .atUnlockFailed e => some (.done UUID.Nil (some (.db e)), { db with locked := false })
  | .atUnlock model => some (.atCreateComponent model, { db with locked := false })
  | .atCreateComponent model =>
    match dbCreateComponent t.flt.createComponent db
        { t.c.GetComponentDefinitionDB with ModelID := model.ID } with
    | (err, db) => some (.done t.c.ID (err.map GoError.db), db)
  | .done _ _ => Option.none

/-- A call run alone for at most `fuel` steps: what it returns and the store
afterwards; `none` when it has not returned. -/
def Thread.runAlone : Nat → Thread → Store → Option (UUID × Option GoError × Store)
  | fuel, t, db =>
    match t.pc with
    | .done id err => some (id, err, db)
    | _ =>
      match fuel with
      | 0 => Option.none
      | fuel + 1 =>
        match t.step db with
        | Option.none => Option.none
        | some (pc, db) => Thread.runAlone fuel { t with pc := pc } db

/-- The calls in flight and the shared store. -/
structure Config where
  threads : List Thread
  db : Store

/-- The start of `N` concurrent calls, each given its component and the bytes
its two `uuid.New()` read; no storage call fails. -/
def Config.start (env : Env) (db : Store)
    (calls : List (ComponentDefinition × List Nat × List Nat)) : Config :=
  ⟨calls.map fun call => spawn env Faults.none call.2.1 call.2.2 call.1, db⟩

/-- The scheduler lets call `i` take one step; nothing happens when there is
no such call or it cannot move. -/
def Config.stepAt (i : Nat) (cfg : Config) : Config :=
  match cfg.threads[i]? with
  | Option.none => cfg
  | some t =>
    match t.step cfg.db with
    | Option.none => cfg
    | some (pc, db) => ⟨cfg.threads.set i { t with pc := pc }, db⟩

/-- An interleaving: the calls scheduled one after the other. -/
def Config.run (sched : List Nat) (cfg : Config) : Config :=
  sched.foldl (fun cfg i => cfg.stepAt i) cfg

/-- The call has returned. -/
def Pc.isDone : Pc → Bool
  | .done _ _ => true
  | _ => false

/-- The call holds `modelCreationLock`. -/
def Pc.inCS : Pc → Bool
  | .atFirst => true
  | .atCreateModel => true
  | .atUnlockFailed _ => true
  | .atUnlock _ => true
  | _ => false

/-- An upper bound on the steps a call has left. -/
def Pc.remaining : Pc → Nat
  | .atLock => 5
  | .atFirst => 4
  | .atCreateModel => 3
  | .atUnlockFailed _ => 1
  | .atUnlock _ => 2
  | .atCreateComponent _ => 1
  | .done _ _ => 0

/-- Every call has returned. -/
def Config.allDone (cfg : Config) : Bool := cfg.threads.all fun t => t.pc.isDone

/-- Call `i` exists and can move. -/
def Config.enabled (i : Nat) (cfg : Config) : Bool :=
  match cfg.threads[i]? with
  | Option.none => false
  | some t => (t.step cfg.db).isSome

/-- An upper bound on the steps left in total. -/
def Config.remaining (cfg : Config) : Nat := (cfg.threads.map fun t => t.pc.remaining).sum

/-- A model row with the identifier is stored. -/
def Store.hasModel (db : Store) (id : UUID) : Bool := db.models.any fun m => m.ID == id

/-- What holds of a call at its position, for calls on the model identifier
`mid` whose storage calls do not fail. -/
def Thread.ok (mid : UUID) (db0 db : Store) (t : Thread) : Prop :=
  t.modelID = mid ∧ t.flt = Faults.none ∧ t.tempModelID ≠ mid ∧
  (∀ r ∈ db0.components, r.ID ≠ t.c.ID) ∧
  match t.pc with
  | .atLock => True
  | .atFirst => db.locked = true
  | .atCreateModel => db.locked = true ∧ db.hasModel mid = false
  | .atUnlockFailed _ => False
  | .atUnlock m => db.locked = true ∧ m.ID = mid ∧ db.hasModel mid = true
  | .atCreateComponent m => m.ID = mid ∧ db.hasModel mid = true
  | .done id err => id = t.c.ID ∧ err = Option.none ∧ db.hasModel mid = true

/-- The component rows of the calls that have returned. -/
def doneRows (mid : UUID) (threads : List Thread) : List ComponentDefinitionDB :=
  threads.filterMap fun t =>
    if t.pc.isDone then some { t.c.GetComponentDefinitionDB with ModelID := mid } else Option.none

/-- The invariant of concurrent calls on the model identifier `mid`, started
on the store `db0` with the components `cs`. -/
structure RegistryInv (mid : UUID) (db0 : Store) (cs : List ComponentDefinition) (cfg : Config) :
    Prop where
  ok : ∀ (i : Nat) (t : Thread), cfg.threads[i]? = some t → t.ok mid db0 cfg.db
  excl : ∀ (i j : Nat) (ti tj : Thread), cfg.threads[i]? = some ti → cfg.threads[j]? = some tj →
    ti.pc.inCS = true → tj.pc.inCS = true → i = j
  held : cfg.db.locked = true →
    ∃ (i : Nat) (t : Thread), cfg.threads[i]? = some t ∧ t.pc.inCS = true
  comps : cfg.threads.map (fun t => t.c) = cs
  models : ∃ extra, cfg.db.models = db0.models ++ extra ∧
    (extra = [] ∨ (db0.hasModel mid = false ∧ ∃ row, extra = [row] ∧ row.ID = mid))
  rows : ∃ w, cfg.db.components = db0.components ++ w ∧ w.Perm (doneRows mid cfg.threads)

/-! ## Vocabulary of the statements -/

namespace json

mutual
/-- The values `decode` produces: nil, booleans, finite `float64`, strings,
non-nil slices of such values, non-nil maps of such values. -/
def native : GoVal → Bool
  | .nil => true
  | .bool _ => true
  | .int _ => false
  | .float64 (.finite _) => true
  | .float64 .nan => false
  | .float64 (.inf _) => false
  | .str _ => true
  | .nilSlice => false
  | .slice xs => nativeElems xs
  | .nilMap => false
  | .map kvs => nativeFields kvs
  | .chan => false
/-- All elements are `native`. -/
def nativeElems : List GoVal → Bool
  | [] => true
  | v :: vs => native v && nativeElems vs
/-- All entries hold `native` values and the keys are in increasing order. -/
def nativeFields : List (String × GoVal) → Bool
  | [] => true
  | (k, v) :: kvs => native v && kvs.all (fun p => keyLt k p.1) && nativeFields kvs
end

/-- A metadata mapping whose values are all `native`; the nil map counts. -/
def nativeMap : GoMap → Bool
  | none => true
  | some kvs => nativeFields kvs

end json

/-- The payload spells a JSON object. -/
def Payload.isObject : Payload → Bool
  | .text (.object _) => true
  | _ => false

/-- The payload spells the JSON document `null`. -/
def Payload.isNull : Payload → Bool
  | .text .null => true
  | _ => false

/-! ## Concrete values used to evaluate the functions -/

/-- An environment to run `CreateComponent` in: the digest is a stand-in that
returns its input, and a `Model` is serialised as its name, a zero byte and
its version. -/
def demoEnv : Env :=
  ⟨fun b => b, fun m => .ok (m.Name.data.map Char.toNat ++ [0] ++ m.Version.data.map Char.toNat)⟩

/-- The code points of a string; SQLite compares text byte by byte, which is
the order of the code points. -/
def codes (s : String) : List Nat := s.data.map Char.toNat

/-- The sort key of a joined row under a column name, qualified by its table
or not; names are matched without regard to case. `none` for a name the join
cannot resolve: no column of either table, or `id` and `metadata`, which both
tables have. Ordering on the metadata blob of a component is left out. -/
def columnKey (name : String) : Option (componentDefinitionWithModel → List Nat) :=
  match String.mk (name.data.map Char.toLower) with
  | "kind" | "component_definition_dbs.kind" => some fun r => codes r.1.Kind
  | "api_version" | "component_definition_dbs.api_version" => some fun r => codes r.1.APIVersion
  | "display_name" | "component_definition_dbs.display_name" =>
    some fun r => codes r.1.DisplayName
  | "format" | "component_definition_dbs.format" => some fun r => codes r.1.Format
  | "schema" | "component_definition_dbs.schema" => some fun r => codes r.1.Schema
  | "model_id" | "component_definition_dbs.model_id" => some fun r => r.1.ModelID.bytes
  | "component_definition_dbs.id" => some fun r => r.1.ID.bytes
  | "created_at" | "component_definition_dbs.created_at" => some fun r => [r.1.CreatedAt]
  | "updated_at" | "component_definition_dbs.updated_at" => some fun r => [r.1.UpdatedAt]
  | "name" | "models.name" => some fun r => codes r.2.Name
  | "version" | "models.version" => some fun r => codes r.2.Version
  | "models.id" => some fun r => r.2.ID.bytes
  | "models.metadata" => some fun r => codes r.2.Metadata
  | _ => none

/-- One term of an `ORDER BY`: the key and whether it is descending. -/
abbrev OrderTerm := (componentDefinitionWithModel → List Nat) × Bool

/-- The pieces of a text between separators. -/
def splitOn (sep : Char → Bool) : List Char → List (List Char)
  | [] => [[]]
  | c :: cs =>
    if sep c then [] :: splitOn sep cs
    else
      match splitOn sep cs with
      | [] => [[c]]
      | w :: ws => (c :: w) :: ws

/-- One term of a raw `ORDER BY` text: a column name, then optionally `ASC` or
`DESC` in any case. -/
def orderTerm (term : List Char) : Option OrderTerm :=
  match (splitOn Char.isWhitespace term).filter (fun w => !w.isEmpty) with
  | [col] => (columnKey (String.mk col)).map fun key => (key, false)
  | [col, dir] =>
    match String.mk (dir.map Char.toLower) with
    | "asc" => (columnKey (String.mk col)).map fun key => (key, false)
    | "desc" => (columnKey (String.mk col)).map fun key => (key, true)
    | _ => none
  | _ => none

/-- All terms of a list, if each one parses. -/
def orderTerms : List (List Char) → Option (List OrderTerm)
  | [] => some []
  | t :: ts =>
    match orderTerm t, orderTerms ts with
    | some o, some os => some (o :: os)
    | _, _ => none

/-- A raw `ORDER BY` text: terms separated by commas. Texts outside this
fragment of SQL (expressions, collations, `NULLS FIRST`) are not parsed. -/
def parseOrder (text : String) : Option (List OrderTerm) :=
  orderTerms (splitOn (fun c => c == ',') text.data)

/-- Insertion of a row into a list sorted on one term, before the rows that do
not precede it, so that equal rows keep their order. -/
def insertRow (o : OrderTerm) (r : componentDefinitionWithModel) :
    List componentDefinitionWithModel → List componentDefinitionWithModel
  | [] => [r]
  | r1 :: rest =>
    if (if o.2 then json.lexLt (o.1 r) (o.1 r1) else json.lexLt (o.1 r1) (o.1 r)) then
      r1 :: insertRow o r rest
    else r :: r1 :: rest

/-- Stable sort on one term. -/
def sortRows (o : OrderTerm) (rows : List componentDefinitionWithModel) :
    List componentDefinitionWithModel :=
  rows.foldr (insertRow o) []

/-- An engine in the manner of SQLite behind gorm. `LIKE` folds ASCII case. A
column handed over as a name is quoted, so it has to be a column of the join;
a raw column is emitted as written, followed by `DESC` when the flag is set,
and SQLite reads the text as its `ORDER BY` terms. Rows are sorted on the
last term first, each sort stable; what cannot be resolved is an error. -/
def sqliteEngine : Engine :=
  ⟨true, fun o rows =>
    match (if o.Raw then parseOrder (if o.Desc then o.Name ++ " DESC" else o.Name)
      else (columnKey o.Name).map fun key => [(key, o.Desc)]) with
    | some terms => .ok (terms.foldr sortRows rows)
    | none => .error (.engine 1)⟩

/-- An empty store with the lock free. -/
def emptyStore : Store := ⟨[], [], false, []⟩

/-- A model named `istio`, version `1.0`. -/
def istioModel : Model := ⟨UUID.Nil, "istio", "1.0", ""⟩

/-- The identifier `CreateComponent` derives for `istioModel` under `demoEnv`. -/
def istioID : UUID :=
  uuid.NewSHA1 demoEnv.sha1 UUID.Nil ("istio".data.map Char.toNat ++ [0] ++ "1.0".data.map Char.toNat)

/-- A component of the given kind carrying `istioModel`. -/
def componentOfKind (kind : String) : ComponentDefinition :=
  { ComponentDefinition.zero with Kind := kind, Model := istioModel }

/-- The stored row of a component of the given kind, with identifier bytes
`n`, attached to the stored `istioModel`. -/
def rowOfKind (n : Nat) (kind : String) : ComponentDefinitionDB :=
  { ComponentDefinitionDB.zero with
    Kind := kind, ID := uuid.New [n], ModelID := istioID, Metadata := .text (.object []) }

/-- A store holding the model and the listed kinds, one row each. -/
def storeOfKinds (kinds : List String) : Store :=
  ⟨[{ istioModel with ID := istioID }], kinds.enum.map fun p => rowOfKind p.1 p.2, false, []⟩

/-- The store with the two components `Foo` and `FooBar`. -/
def fooStore : Store := storeOfKinds ["Foo", "FooBar"]

/-- A store with ten components. -/
def tenStore : Store :=
  storeOfKinds ["c01", "c02", "c03", "c04", "c05", "c06", "c07", "c08", "c09", "c10"]

/-- A store whose components are not in the order of their kinds, two of them
of the same kind. -/
def podStore : Store := storeOfKinds ["Pod", "Service", "Deployment", "Pod"]

/-- Three calls carrying `istioModel`, with the bytes their `uuid.New()` read. -/
def threeCalls : List (ComponentDefinition × List Nat × List Nat) :=
  [(componentOfKind "Foo", [1], [2]), (componentOfKind "FooBar", [3], [4]),
    (componentOfKind "Baz", [5], [6])]

/-- An interleaving of three calls: the first takes the lock and inserts the
model while the others wait, the third overtakes the second, and the third
writes its component before the first does. -/
def demoSchedule : List Nat := [0, 1, 2, 0, 1, 0, 0, 2, 2, 1, 2, 2, 0, 1, 1, 1, 1]

/-- A component whose metadata holds a channel, which `json.Marshal` rejects. -/
def chanComponent : ComponentDefinition :=
  { componentOfKind "Gateway" with Metadata := some [("events", GoVal.chan)] }

/-- A component whose metadata holds the Go integer 3. -/
def replicasComponent : ComponentDefinition :=
  { componentOfKind "Deployment" with Metadata := some [("replicas", GoVal.int 3)] }

/-- A component with metadata made of decoder-native values. -/
def labelledComponent : ComponentDefinition :=
  { componentOfKind "Service" with
    Metadata := some [("labels", GoVal.map [("app", GoVal.str "web")]),
      ("ports", GoVal.slice [GoVal.float64 (.finite 80), GoVal.nil]),
      ("public", GoVal.bool true)] }

/-- A stored row whose metadata bytes are the JSON text `null`. -/
def nullRow : ComponentDefinitionDB :=
  { rowOfKind 1 "Gateway" with Metadata := .text .null }

/-- A stored row whose metadata bytes are the JSON text `[1]`. -/
def arrayRow : ComponentDefinitionDB :=
  { rowOfKind 2 "Gateway" with Metadata := .text (.array [.number 1]) }

/-! # Theorems -/

/-! ## Lemmas on identifiers, lookups and the JSON codec -/

namespace uuid

/-- The array filled by `copy16` has 16 bytes. -/
theorem copy16_length (s : List Nat) : (copy16 s).length = 16 := by
  simp [copy16, List.length_take]

/-- Byte 6 of a stamped identifier: the low nibble of the input, the version
in the high nibble. -/
theorem versionByte (version : Nat) (b : List Nat) (hb : b.length = 16) :
    (setVariant (setVersion version b)).getD 6 0 = b.getD 6 0 % 16 + (version % 16) * 16 := by
  simp [setVariant, setVersion, List.getD_eq_getElem?_getD, List.getElem?_set, hb]

/-- A random (version 4) identifier never equals a SHA-1 (version 5) one. -/
theorem New_ne_NewSHA1 (sha1 : List Nat → List Nat) (rnd : List Nat) (space : UUID)
    (data : List Nat) : New rnd ≠ NewSHA1 sha1 space data := by
  intro h
  have h6 := congrArg (fun u => u.bytes.getD 6 0) h
  simp only [New, NewSHA1] at h6
  rw [versionByte 4 _ (copy16_length _), versionByte 5 _ (copy16_length _)] at h6
  omega

end uuid

/-- A row found by identifier has that identifier. -/
theorem find_ID_eq {ms : List Model} {id : UUID} {m : Model}
    (h : ms.find? (fun m => m.ID == id) = some m) : m.ID = id := by
  have := List.find?_some h
  simpa using this

/-- A lookup that finds nothing means no row has the identifier. -/
theorem any_ID_of_find_none {ms : List Model} {id : UUID}
    (h : ms.find? (fun m => m.ID == id) = none) : ms.any (fun m => m.ID == id) = false := by
  rw [List.find?_eq_none] at h
  rw [Bool.eq_false_iff]
  intro hany
  rw [List.any_eq_true] at hany
  obtain ⟨m, hm, hm2⟩ := hany
  exact h m hm hm2

/-- After a row is appended to a table without its identifier, the lookup finds it. -/
theorem find_append_new (ms : List Model) (row : Model)
    (h : ms.find? (fun m => m.ID == row.ID) = none) :
    (ms ++ [row]).find? (fun m => m.ID == row.ID) = some row := by
  simp [List.find?_append, h]

/-- The tail of `CreateComponent` when the component write succeeds. -/
theorem finish_ok (flt : Faults) (db : Store) (c : ComponentDefinition) (model : Model)
    (hflt : flt.createComponent = none) (hfresh : ∀ r ∈ db.components, r.ID ≠ c.ID) :
    CreateComponent.finish flt db c model =
      some (c.ID, none,
        { db with
          locked := false
          calls := db.calls ++ [DbCall.createComponent { c.GetComponentDefinitionDB with ModelID := model.ID }]
          components := db.components ++ [{ c.GetComponentDefinitionDB with ModelID := model.ID }] }) := by
  have hany : db.components.any (fun r => r.ID == c.ID) = false := by
    rw [Bool.eq_false_iff]
    intro hany
    rw [List.any_eq_true] at hany
    obtain ⟨r, hr, hr2⟩ := hany
    exact hfresh r hr (by simpa using hr2)
  have hid : c.GetComponentDefinitionDB.ID = c.ID := rfl
  simp [CreateComponent.finish, dbCreateComponent, hflt, hany, hid]

/-- The dedup-hit path: the lookup finds the model, nothing is written to `models`. -/
theorem CreateComponent_hit (env : Env) (flt : Faults) (rnd1 rnd2 : List Nat) (db : Store)
    (c : ComponentDefinition) (byt : List Nat) (m : Model)
    (hm : env.marshalModel c.Model = .ok byt) (hfree : db.locked = false)
    (hflt : flt.first = none)
    (hfind : db.models.find? (fun m => m.ID == uuid.NewSHA1 env.sha1 UUID.Nil byt) = some m) :
    CreateComponent env flt rnd1 rnd2 db c =
      CreateComponent.finish flt
        { db with locked := true, calls := db.calls ++ [DbCall.first (uuid.NewSHA1 env.sha1 UUID.Nil byt)] }
        { c with ID := uuid.New rnd1 } m := by
  have hid := find_ID_eq hfind
  have hne : ¬ (m.ID = uuid.New rnd2) := by
    rw [hid]; exact fun h => uuid.New_ne_NewSHA1 _ _ _ _ h.symm
  simp [CreateComponent, hm, hfree, dbFirst, hflt, hfind, hne]

/-- The dedup-miss path: the lookup finds nothing and the model is written. -/
theorem CreateComponent_miss (env : Env) (flt : Faults) (rnd1 rnd2 : List Nat) (db : Store)
    (c : ComponentDefinition) (byt : List Nat)
    (hm : env.marshalModel c.Model = .ok byt) (hfree : db.locked = false)
    (hflt : flt.first = none) (hflt2 : flt.createModel = none)
    (hfind : db.models.find? (fun m => m.ID == uuid.NewSHA1 env.sha1 UUID.Nil byt) = none) :
    CreateComponent env flt rnd1 rnd2 db c =
      CreateComponent.finish flt
        { db with
          locked := true
          calls := db.calls ++ [DbCall.first (uuid.NewSHA1 env.sha1 UUID.Nil byt),
            DbCall.createModel { c.Model with ID := uuid.NewSHA1 env.sha1 UUID.Nil byt }]
          models := db.models ++ [{ c.Model with ID := uuid.NewSHA1 env.sha1 UUID.Nil byt }] }
        { c with ID := uuid.New rnd1 } { c.Model with ID := uuid.NewSHA1 env.sha1 UUID.Nil byt } := by
  have hany := any_ID_of_find_none hfind
  simp [CreateComponent, hm, hfree, dbFirst, hflt, hfind, dbCreateModel, hflt2, hany]

/-- Some row has the identifier exactly when the lookup finds one. -/
theorem any_ID_iff_find (ms : List Model) (id : UUID) :
    ms.any (fun m => m.ID == id) = (ms.find? (fun m => m.ID == id)).isSome := by
  induction ms with
  | nil => rfl
  | cons m ms ih =>
    by_cases h : m.ID = id
    · simp [List.find?_cons, h]
    · simp [List.find?_cons, h, ih]

/-- One `CreateComponent` with every storage call succeeding: the returned
identifier, the tables and the calls afterwards. -/
theorem CreateComponent_ok (env : Env) (rnd1 rnd2 : List Nat) (db : Store)
    (c : ComponentDefinition) (byt : List Nat)
    (hm : env.marshalModel c.Model = .ok byt) (hfree : db.locked = false)
    (hfresh : ∀ r ∈ db.components, r.ID ≠ uuid.New rnd1) :
    ∃ db1, CreateComponent env Faults.none rnd1 rnd2 db c = some (uuid.New rnd1, none, db1) ∧
      db1.locked = false ∧
      db1.components = db.components ++
        [{ ({ c with ID := uuid.New rnd1 }).GetComponentDefinitionDB with
            ModelID := uuid.NewSHA1 env.sha1 UUID.Nil byt }] ∧
      db1.models =
        (if db.models.any (fun m => m.ID == uuid.NewSHA1 env.sha1 UUID.Nil byt) then db.models
         else db.models ++ [{ c.Model with ID := uuid.NewSHA1 env.sha1 UUID.Nil byt }]) ∧
      db1.calls = db.calls ++
        (if db.models.any (fun m => m.ID == uuid.NewSHA1 env.sha1 UUID.Nil byt) then
          [DbCall.first (uuid.NewSHA1 env.sha1 UUID.Nil byt),
           DbCall.createComponent { ({ c with ID := uuid.New rnd1 }).GetComponentDefinitionDB with
            ModelID := uuid.NewSHA1 env.sha1 UUID.Nil byt }]
         else
          [DbCall.first (uuid.NewSHA1 env.sha1 UUID.Nil byt),
           DbCall.createModel { c.Model with ID := uuid.NewSHA1 env.sha1 UUID.Nil byt },
           DbCall.createComponent { ({ c with ID := uuid.New rnd1 }).GetComponentDefinitionDB with
            ModelID := uuid.NewSHA1 env.sha1 UUID.Nil byt }]) := by
  cases hfind : db.models.find? (fun m => m.ID == uuid.NewSHA1 env.sha1 UUID.Nil byt) with
  | some m =>
    have hmid := find_ID_eq hfind
    have hany : db.models.any (fun m => m.ID == uuid.NewSHA1 env.sha1 UUID.Nil byt) = true := by
      rw [any_ID_iff_find, hfind]; rfl
    have e1 := CreateComponent_hit env Faults.none rnd1 rnd2 db c byt m hm hfree rfl hfind
    rw [finish_ok _ _ _ _ rfl (by simpa using hfresh)] at e1
    refine ⟨_, e1, ?_⟩
    simp [hany, hmid]
  | none =>
    have hany := any_ID_of_find_none hfind
    have e1 := CreateComponent_miss env Faults.none rnd1 rnd2 db c byt hm hfree rfl rfl hfind
    rw [finish_ok _ _ _ _ rfl (by simpa using hfresh)] at e1
    refine ⟨_, e1, ?_⟩
    simp [hany]


namespace json

/-- No list is below itself. -/
theorem lexLt_irrefl (a : List Nat) : lexLt a a = false := by
  induction a with
  | nil => rfl
  | cons x xs ih => simp [lexLt, ih]

/-- The order `lexLt` is asymmetric. -/
theorem lexLt_asymm : ∀ (a b : List Nat), lexLt a b = true → lexLt b a = false
  | _, [], h => by simp [lexLt] at h
  | [], _ :: _, _ => by simp [lexLt]
  | x :: xs, y :: ys, h => by
    simp only [lexLt] at h ⊢
    by_cases hxy : x < y
    · have : ¬ y < x := by omega
      simp [this, hxy]
    · by_cases hyx : y < x
      · simp [hxy, hyx] at h
      · simp only [hxy, hyx, if_false] at h ⊢
        exact lexLt_asymm xs ys h

/-- Assigning a key above all present keys appends the entry. -/
theorem insertKV_last (k : String) (v : GoVal) (dst : List (String × GoVal))
    (h : ∀ p ∈ dst, keyLt p.1 k = true) : insertKV k v dst = dst ++ [(k, v)] := by
  induction dst with
  | nil => rfl
  | cons p rest ih =>
    obtain ⟨k1, v1⟩ := p
    have h1 : keyLt k1 k = true := h (k1, v1) (List.mem_cons_self _ _)
    have hne : k ≠ k1 := by
      intro e
      subst e
      have := lexLt_irrefl (k.data.map Char.toNat)
      simp [keyLt, this] at h1
    have hlt : keyLt k k1 = false := lexLt_asymm _ _ h1
    simp [insertKV, hne, hlt, ih (fun p hp => h p (List.mem_cons_of_mem _ hp))]

mutual
/-- Decoding the encoding of a native value gives the value back. -/
theorem decode_encode : ∀ (v : GoVal), native v = true → ∃ j, encode v = .ok j ∧ decode j = v
  | .nil, _ => ⟨_, rfl, rfl⟩
  | .bool _, _ => ⟨_, rfl, rfl⟩
  | .int _, h => by simp [native] at h
  | .float64 (.finite _), _ => ⟨_, rfl, rfl⟩
  | .float64 .nan, h => by simp [native] at h
  | .float64 (.inf _), h => by simp [native] at h
  | .str _, _ => ⟨_, rfl, rfl⟩
  | .nilSlice, h => by simp [native] at h
  | .slice xs, h => by
    obtain ⟨js, e1, e2⟩ := decodeElems_encodeElems xs (by simpa [native] using h)
    exact ⟨.array js, by simp [encode, e1], by simp [decode, e2]⟩
  | .nilMap, h => by simp [native] at h
  | .map kvs, h => by
    obtain ⟨js, e1, e2⟩ := decodeFields_encodeFields kvs (by simpa [native] using h)
    exact ⟨.object js, by simp [encode, e1], by simpa [decode] using e2 [] (by simp)⟩
  | .chan, h => by simp [native] at h
/-- Decoding the encoding of native elements gives them back. -/
theorem decodeElems_encodeElems : ∀ (vs : List GoVal), nativeElems vs = true →
    ∃ js, encodeElems vs = .ok js ∧ decodeElems js = vs
  | [], _ => ⟨[], rfl, rfl⟩
  | v :: vs, h => by
    simp only [nativeElems, Bool.and_eq_true] at h
    obtain ⟨j, e1, e2⟩ := decode_encode v h.1
    obtain ⟨js, e3, e4⟩ := decodeElems_encodeElems vs h.2
    exact ⟨j :: js, by simp [encodeElems, e1, e3], by simp [decodeElems, e2, e4]⟩
/-- Decoding the encoding of native entries into a map whose keys are all
below theirs appends them. -/
theorem decodeFields_encodeFields : ∀ (kvs : List (String × GoVal)), nativeFields kvs = true →
    ∃ js, encodeFields kvs = .ok js ∧
      ∀ dst : List (String × GoVal), (∀ p ∈ dst, ∀ q ∈ kvs, keyLt p.1 q.1 = true) →
        decodeFields js dst = dst ++ kvs
  | [], _ => ⟨[], rfl, fun dst _ => by simp [decodeFields]⟩
  | (k, v) :: kvs, h => by
    simp only [nativeFields, Bool.and_eq_true, List.all_eq_true] at h
    obtain ⟨⟨hv, hk⟩, hrest⟩ := h
    obtain ⟨j, e1, e2⟩ := decode_encode v hv
    obtain ⟨js, e3, e4⟩ := decodeFields_encodeFields kvs hrest
    refine ⟨(k, j) :: js, by simp [encodeFields, e1, e3], ?_⟩
    intro dst hdst
    have hins : insertKV k v dst = dst ++ [(k, v)] :=
      insertKV_last k v dst (fun p hp => hdst p hp (k, v) (List.mem_cons_self _ _))
    simp only [decodeFields, e2, hins]
    rw [e4 (dst ++ [(k, v)])]
    · simp
    · intro p hp q hq
      rcases List.mem_append.1 hp with hp | hp
      · exact hdst p hp q (List.mem_cons_of_mem _ hq)
      · rw [List.mem_singleton.1 hp]
        exact hk q hq
end

end json

/-! ## Registration: `CreateComponent` -/

/-- C1 (dedup idempotence). Let `c1` and `c2` carry models that serialise to the
same bytes `byt`, let the lock be free, no storage call fail, and the two fresh
component identifiers be unused and distinct. Then both calls return their
component identifier without error; the `models` table gains exactly one row,
with the content-derived identifier, or none when a row with that identifier
was already stored; the `components` table gains exactly two rows, both with
`ModelID` equal to that identifier, which is the identifier of a stored model
row; and the second call writes no model: its only storage calls are the
lookup and the component write. -/
theorem CreateComponent_dedup_idempotent (env : Env) (db : Store) (c1 c2 : ComponentDefinition)
    (r1 t1 r2 t2 byt : List Nat)
    (hfree : db.locked = false)
    (h1 : env.marshalModel c1.Model = .ok byt) (h2 : env.marshalModel c2.Model = .ok byt)
    (hid1 : ∀ r ∈ db.components, r.ID ≠ uuid.New r1)
    (hid2 : ∀ r ∈ db.components, r.ID ≠ uuid.New r2)
    (hne : uuid.New r1 ≠ uuid.New r2) :
    ∃ db1 db2 row1 row2,
      CreateComponent env Faults.none r1 t1 db c1 = some (uuid.New r1, none, db1) ∧
      CreateComponent env Faults.none r2 t2 db1 c2 = some (uuid.New r2, none, db2) ∧
      db2.models =
        (if db.models.any (fun m => m.ID == uuid.NewSHA1 env.sha1 UUID.Nil byt) then db.models
         else db.models ++ [{ c1.Model with ID := uuid.NewSHA1 env.sha1 UUID.Nil byt }]) ∧
      db2.components = db.components ++ [row1, row2] ∧
      row1.ID = uuid.New r1 ∧ row2.ID = uuid.New r2 ∧
      row1.ModelID = uuid.NewSHA1 env.sha1 UUID.Nil byt ∧
      row2.ModelID = uuid.NewSHA1 env.sha1 UUID.Nil byt ∧
      (∃ m ∈ db2.models, m.ID = uuid.NewSHA1 env.sha1 UUID.Nil byt) ∧
      db2.models = db1.models ∧
      db2.calls = db1.calls ++
        [DbCall.first (uuid.NewSHA1 env.sha1 UUID.Nil byt), DbCall.createComponent row2] := by
  obtain ⟨db1, e1, hl1, hc1, hm1, -⟩ := CreateComponent_ok env r1 t1 db c1 byt h1 hfree hid1
  have hfresh2 : ∀ r ∈ db1.components, r.ID ≠ uuid.New r2 := by
    intro r hr
    rw [hc1] at hr
    rcases List.mem_append.1 hr with hr | hr
    · exact hid2 r hr
    · rw [List.mem_singleton.1 hr]; exact hne
  have hany1 : db1.models.any (fun m => m.ID == uuid.NewSHA1 env.sha1 UUID.Nil byt) = true := by
    rw [hm1]
    by_cases hany : db.models.any (fun m => m.ID == uuid.NewSHA1 env.sha1 UUID.Nil byt) = true
    · simp only [hany, if_true]
    · simp [hany]
  obtain ⟨db2, e2, -, hc2, hm2, hk2⟩ := CreateComponent_ok env r2 t2 db1 c2 byt h2 hl1 hfresh2
  simp only [hany1, if_true] at hm2 hk2
  have hcomp : db2.components = db.components ++
      [{ ({ c1 with ID := uuid.New r1 }).GetComponentDefinitionDB with
          ModelID := uuid.NewSHA1 env.sha1 UUID.Nil byt },
       { ({ c2 with ID := uuid.New r2 }).GetComponentDefinitionDB with
          ModelID := uuid.NewSHA1 env.sha1 UUID.Nil byt }] := by
    rw [hc2, hc1, List.append_assoc]; rfl
  refine ⟨db1, db2, _, _, e1, e2, hm2.trans hm1, hcomp, rfl, rfl, rfl, rfl, ?_, hm2, hk2⟩
  rw [hm2]
  simpa [List.any_eq_true] using hany1

/-- C1 at a concrete input: registering `Foo` and then `FooBar`, both carrying
`istioModel`, into the empty store leaves one model row and two component
rows that reference it. -/
theorem CreateComponent_dedup_idempotent_witness :
    ∃ db1 db2,
      CreateComponent demoEnv Faults.none [1] [2] emptyStore (componentOfKind "Foo") =
        some (uuid.New [1], none, db1) ∧
      CreateComponent demoEnv Faults.none [3] [4] db1 (componentOfKind "FooBar") =
        some (uuid.New [3], none, db2) ∧
      db2.models = [{ istioModel with ID := istioID }] ∧
      db2.components.map (fun r => r.ModelID) = [istioID, istioID] := by
  obtain ⟨db1, db2, row1, row2, e1, e2, hm, hc, -, -, hr1, hr2, -⟩ :=
    CreateComponent_dedup_idempotent demoEnv emptyStore (componentOfKind "Foo")
      (componentOfKind "FooBar") [1] [2] [3] [4]
      ("istio".data.map Char.toNat ++ [0] ++ "1.0".data.map Char.toNat)
      rfl rfl rfl (by simp [emptyStore]) (by simp [emptyStore]) (by decide)
  refine ⟨db1, db2, e1, e2, ?_, ?_⟩
  · rw [hm]; rfl
  · rw [hc]
    simp only [emptyStore, List.nil_append, List.map_cons, List.map_nil, hr1, hr2]
    rfl

/-- C2 at the failing input: the metadata of `chanComponent` cannot be
serialised (`json.Marshal` reports an unsupported type), yet `CreateComponent`
returns the component identifier with a nil error, having written the model
row and a component row whose metadata bytes are empty. -/
theorem CreateComponent_swallows_metadata_marshal_error :
    (json.Marshal chanComponent.Metadata).2 = some JsonErr.unsupportedType ∧
    ∃ db1,
      CreateComponent demoEnv Faults.none [1] [2] emptyStore chanComponent =
        some (uuid.New [1], none, db1) ∧
      db1.models = [{ istioModel with ID := istioID }] ∧
      db1.components.map (fun r => (r.ID, r.Kind)) = [(uuid.New [1], "Gateway")] ∧
      db1.components.map (fun r => r.Metadata) = [Payload.raw []] :=
  ⟨rfl, _, rfl, rfl, rfl, rfl⟩

/-- C3 (no partial success in the model phase). With the model serialised and
the lock free: if the lookup fails with an engine error, the call returns that
error with the zero identifier, both tables are unchanged and the lookup is
the only storage call; if the lookup finds no row and the model write fails,
the call returns that error with the zero identifier, both tables are
unchanged and the storage calls are the lookup and the model write, so the
component write is never attempted. -/
theorem CreateComponent_model_phase_failure (env : Env) (flt : Faults) (rnd1 rnd2 : List Nat)
    (db : Store) (c : ComponentDefinition) (byt : List Nat)
    (hm : env.marshalModel c.Model = .ok byt) (hfree : db.locked = false) :
    (∀ code, flt.first = some code →
      ∃ db1, CreateComponent env flt rnd1 rnd2 db c =
          some (UUID.Nil, some (GoError.db (DbErr.engine code)), db1) ∧
        db1.models = db.models ∧ db1.components = db.components ∧
        db1.calls = db.calls ++ [DbCall.first (uuid.NewSHA1 env.sha1 UUID.Nil byt)]) ∧
    (∀ code, flt.first = none →
      (∀ m ∈ db.models, m.ID ≠ uuid.NewSHA1 env.sha1 UUID.Nil byt) →
      flt.createModel = some code →
      ∃ db1, CreateComponent env flt rnd1 rnd2 db c =
          some (UUID.Nil, some (GoError.db (DbErr.engine code)), db1) ∧
        db1.models = db.models ∧ db1.components = db.components ∧
        db1.calls = db.calls ++ [DbCall.first (uuid.NewSHA1 env.sha1 UUID.Nil byt),
          DbCall.createModel { c.Model with ID := uuid.NewSHA1 env.sha1 UUID.Nil byt }]) := by
  constructor
  · intro code hflt
    refine ⟨{ db with
      locked := true
      calls := db.calls ++ [DbCall.first (uuid.NewSHA1 env.sha1 UUID.Nil byt)] }, ?_, rfl, rfl, rfl⟩
    simp [CreateComponent, hm, hfree, dbFirst, hflt]
  · intro code hflt habsent hflt2
    have hfind : db.models.find? (fun m => m.ID == uuid.NewSHA1 env.sha1 UUID.Nil byt) = none := by
      rw [List.find?_eq_none]
      intro m hm'
      simpa using habsent m hm'
    refine ⟨{ db with
      calls := db.calls ++ [DbCall.first (uuid.NewSHA1 env.sha1 UUID.Nil byt),
        DbCall.createModel { c.Model with ID := uuid.NewSHA1 env.sha1 UUID.Nil byt }] },
      ?_, rfl, rfl, rfl⟩
    simp [CreateComponent, hm, hfree, dbFirst, hflt, hfind, dbCreateModel, hflt2]

/-- C3 at a concrete input: on the empty store, a lookup failing with engine
error 7 returns that error and leaves both tables empty after one storage
call; a model write failing with engine error 9 does the same after two. -/
theorem CreateComponent_model_phase_failure_witness :
    (∃ db1, CreateComponent demoEnv ⟨some 7, none, none⟩ [1] [2] emptyStore (componentOfKind "Foo") =
        some (UUID.Nil, some (GoError.db (DbErr.engine 7)), db1) ∧
      db1.models = [] ∧ db1.components = [] ∧ db1.calls.length = 1) ∧
    (∃ db1, CreateComponent demoEnv ⟨none, some 9, none⟩ [1] [2] emptyStore (componentOfKind "Foo") =
        some (UUID.Nil, some (GoError.db (DbErr.engine 9)), db1) ∧
      db1.models = [] ∧ db1.components = [] ∧ db1.calls.length = 2) := by
  constructor
  · obtain ⟨db1, e, hm, hc, hk⟩ :=
      (CreateComponent_model_phase_failure demoEnv ⟨some 7, none, none⟩ [1] [2] emptyStore
        (componentOfKind "Foo") ("istio".data.map Char.toNat ++ [0] ++ "1.0".data.map Char.toNat)
        rfl rfl).1 7 rfl
    exact ⟨db1, e, hm, hc, by rw [hk]; rfl⟩
  · obtain ⟨db1, e, hm, hc, hk⟩ :=
      (CreateComponent_model_phase_failure demoEnv ⟨none, some 9, none⟩ [1] [2] emptyStore
        (componentOfKind "Foo") ("istio".data.map Char.toNat ++ [0] ++ "1.0".data.map Char.toNat)
        rfl rfl).2 9 rfl (by simp [emptyStore]) rfl
    exact ⟨db1, e, hm, hc, by rw [hk]; rfl⟩

/-- C10 at the failing input: with the lock free on entry and the lookup
failing with engine error 7, `CreateComponent` returns with the lock still
held, and the next `CreateComponent` never returns. -/
theorem CreateComponent_lookup_error_keeps_lock :
    emptyStore.locked = false ∧
    ∃ db1,
      CreateComponent demoEnv ⟨some 7, none, none⟩ [1] [2] emptyStore (componentOfKind "Foo") =
        some (UUID.Nil, some (GoError.db (DbErr.engine 7)), db1) ∧
      db1.locked = true ∧
      CreateComponent demoEnv Faults.none [3] [4] db1 (componentOfKind "Foo") = none :=
  ⟨rfl, _, rfl, rfl, rfl⟩

/-- Every exit of `CreateComponent` other than the lookup-error one releases the
lock: if the lookup does not fail with an engine error, the call returns and
the lock is free afterwards. -/
theorem CreateComponent_unlocks_without_lookup_error (env : Env) (flt : Faults)
    (rnd1 rnd2 : List Nat) (db : Store) (c : ComponentDefinition)
    (hfree : db.locked = false) (hflt : flt.first = none) :
    ∃ id err db1, CreateComponent env flt rnd1 rnd2 db c = some (id, err, db1) ∧
      db1.locked = false := by
  cases hm : env.marshalModel c.Model with
  | error e => exact ⟨UUID.Nil, some (GoError.json e), db, by simp [CreateComponent, hm], hfree⟩
  | ok byt =>
    have hfin : ∀ (db0 : Store) (c0 : ComponentDefinition) (m0 : Model),
        ∃ id err db1, CreateComponent.finish flt db0 c0 m0 = some (id, err, db1) ∧
          db1.locked = false := by
      intro db0 c0 m0
      simp only [CreateComponent.finish, dbCreateComponent]
      cases flt.createComponent with
      | some code => exact ⟨_, _, _, rfl, rfl⟩
      | none =>
        simp only
        split
        · exact ⟨_, _, _, rfl, rfl⟩
        · exact ⟨_, _, _, rfl, rfl⟩
    cases hfind : db.models.find? (fun m => m.ID == uuid.NewSHA1 env.sha1 UUID.Nil byt) with
    | some m =>
      rw [CreateComponent_hit env flt rnd1 rnd2 db c byt m hm hfree hflt hfind]
      exact hfin _ _ _
    | none =>
      cases hflt2 : flt.createModel with
      | none =>
        rw [CreateComponent_miss env flt rnd1 rnd2 db c byt hm hfree hflt hflt2 hfind]
        exact hfin _ _ _
      | some code =>
        refine ⟨UUID.Nil, some (GoError.db (DbErr.engine code)),
          { db with
            calls := db.calls ++ [DbCall.first (uuid.NewSHA1 env.sha1 UUID.Nil byt),
              DbCall.createModel { c.Model with ID := uuid.NewSHA1 env.sha1 UUID.Nil byt }] },
          ?_, hfree⟩
        simp [CreateComponent, hm, hfree, dbFirst, hflt, hfind, dbCreateModel, hflt2]

/-! ## Concurrent registration -/

/-- A call run alone does what `CreateComponent` does: the steps are its lines. -/
theorem Thread.runAlone_eq (env : Env) (flt : Faults) (rnd1 rnd2 : List Nat) (db : Store)
    (c : ComponentDefinition) :
    (spawn env flt rnd1 rnd2 c).runAlone 5 db = CreateComponent env flt rnd1 rnd2 db c := by
  cases hm : env.marshalModel c.Model with
  | error e => simp [spawn, CreateComponent, hm, Thread.runAlone]
  | ok byt =>
    by_cases hl : db.locked = true
    · simp [spawn, CreateComponent, hm, Thread.runAlone, Thread.step, hl]
    · simp only [Bool.not_eq_true] at hl
      simp only [spawn, CreateComponent, hm, Thread.runAlone, Thread.step, hl,
        CreateComponent.finish, Bool.false_eq_true, if_false]
      cases hf : dbFirst flt.first { db with locked := true }
          (uuid.NewSHA1 env.sha1 UUID.Nil byt) with
      | mk model rest =>
        obtain ⟨err, db1⟩ := rest
        simp only
        split_ifs
        · rfl
        · cases hc : dbCreateModel flt.createModel db1
            ⟨uuid.NewSHA1 env.sha1 UUID.Nil byt, c.Model.Name, c.Model.Version,
              c.Model.Metadata⟩ with
          | mk e db2 => cases e <;> simp [hc]
        · simp

/-- A position read in a list after one position was overwritten. -/
theorem getElem?_set_cases {α : Type} {l : List α} {i j : Nat} {a b : α}
    (h : (l.set i a)[j]? = some b) : (j = i ∧ b = a) ∨ (j ≠ i ∧ l[j]? = some b) := by
  rw [List.getElem?_set] at h
  by_cases hij : i = j
  · subst hij
    simp only [if_true] at h
    split at h
    · exact Or.inl ⟨rfl, by simpa using h.symm⟩
    · simp at h
  · simp only [hij, if_false] at h
    exact Or.inr ⟨fun e => hij e.symm, h⟩

/-- Overwriting an element that is dropped by one that is dropped leaves a
`filterMap` alone. -/
theorem filterMap_set_none {α β : Type} (f : α → Option β) :
    ∀ (l : List α) (i : Nat) (a b : α), l[i]? = some a → f a = none → f b = none →
      (l.set i b).filterMap f = l.filterMap f
  | [], _, _, _, h, _, _ => by simp at h
  | x :: xs, 0, a, b, h, ha, hb => by
    simp only [List.getElem?_cons_zero, Option.some.injEq] at h
    subst h
    simp [List.filterMap_cons, ha, hb]
  | x :: xs, i + 1, a, b, h, ha, hb => by
    simp only [List.getElem?_cons_succ] at h
    simp [List.filterMap_cons, filterMap_set_none f xs i a b h ha hb]

/-- Overwriting an element that is dropped by one that is kept adds one
element to a `filterMap`. -/
theorem filterMap_set_some {α β : Type} (f : α → Option β) :
    ∀ (l : List α) (i : Nat) (a b : α) (r : β), l[i]? = some a → f a = none → f b = some r →
      ((l.set i b).filterMap f).Perm (r :: l.filterMap f)
  | [], _, _, _, _, h, _, _ => by simp at h
  | x :: xs, 0, a, b, r, h, ha, hb => by
    simp only [List.getElem?_cons_zero, Option.some.injEq] at h
    subst h
    simp [List.filterMap_cons, ha, hb]
  | x :: xs, i + 1, a, b, r, h, ha, hb => by
    simp only [List.getElem?_cons_succ] at h
    have ih := filterMap_set_some f xs i a b r h ha hb
    simp only [List.set_cons_succ, List.filterMap_cons]
    cases f x with
    | none => exact ih
    | some y => exact (List.Perm.cons y ih).trans (List.Perm.swap r y _)

/-- When every element is kept, `filterMap` is `map`. -/
theorem filterMap_eq_map_of_some {α β : Type} (f : α → Option β) (g : α → β) :
    ∀ (l : List α), (∀ a ∈ l, f a = some (g a)) → l.filterMap f = l.map g
  | [], _ => rfl
  | x :: xs, h => by
    simp [List.filterMap_cons, h x (List.mem_cons_self _ _),
      filterMap_eq_map_of_some f g xs (fun a ha => h a (List.mem_cons_of_mem _ ha))]

/-- The sum of a measure after one element was overwritten. -/
theorem sum_map_set {α : Type} (f : α → Nat) :
    ∀ (l : List α) (i : Nat) (a b : α), l[i]? = some a →
      ((l.set i b).map f).sum + f a = (l.map f).sum + f b
  | [], _, _, _, h => by simp at h
  | x :: xs, 0, a, b, h => by
    simp only [List.getElem?_cons_zero, Option.some.injEq] at h
    subst h
    simp only [List.set_cons_zero, List.map_cons, List.sum_cons]
    omega
  | x :: xs, i + 1, a, b, h => by
    simp only [List.getElem?_cons_succ] at h
    have ih := sum_map_set f xs i a b h
    simp only [List.set_cons_succ, List.map_cons, List.sum_cons]
    omega

/-- Every step brings a call closer to its return. -/
theorem Thread.step_remaining (t : Thread) (db db1 : Store) (pc : Pc)
    (h : t.step db = some (pc, db1)) : pc.remaining < t.pc.remaining := by
  unfold Thread.step at h
  cases hpc : t.pc with
  | atLock =>
    simp only [hpc] at h
    split at h
    · simp at h
    · simp only [Option.some.injEq, Prod.mk.injEq] at h
      rw [← h.1]; simp [Pc.remaining]
  | atFirst =>
    simp only [hpc] at h
    split_ifs at h <;> simp only [Option.some.injEq, Prod.mk.injEq] at h <;>
      rw [← h.1] <;> simp [Pc.remaining]
  | atCreateModel =>
    simp only [hpc] at h
    split at h <;> simp only [Option.some.injEq, Prod.mk.injEq] at h <;>
      rw [← h.1] <;> simp [Pc.remaining]
  | atUnlockFailed e =>
    simp only [hpc, Option.some.injEq, Prod.mk.injEq] at h
    rw [← h.1]; simp [Pc.remaining]
  | atUnlock m =>
    simp only [hpc, Option.some.injEq, Prod.mk.injEq] at h
    rw [← h.1]; simp [Pc.remaining]
  | atCreateComponent m =>
    simp only [hpc, Option.some.injEq, Prod.mk.injEq] at h
    rw [← h.1]; simp [Pc.remaining]
  | done id err => simp [hpc] at h

/-- A step that moves a call lowers the bound on the steps left. -/
theorem Config.stepAt_remaining (cfg : Config) (i : Nat) (h : cfg.enabled i = true) :
    (cfg.stepAt i).remaining < cfg.remaining := by
  unfold Config.enabled at h
  unfold Config.stepAt
  cases ht : cfg.threads[i]? with
  | none => simp [ht] at h
  | some t =>
    simp only [ht] at h ⊢
    cases hs : t.step cfg.db with
    | none => simp [hs] at h
    | some r =>
      obtain ⟨pc, db1⟩ := r
      simp only [Config.remaining]
      have h1 := sum_map_set (fun t => t.pc.remaining) cfg.threads i t { t with pc := pc } ht
      have h2 := Thread.step_remaining t cfg.db db1 pc hs
      simp only at h1
      omega

/-- Overwriting an element by itself changes nothing. -/
theorem set_eq_self {α : Type} : ∀ {l : List α} {i : Nat} {a : α}, l[i]? = some a → l.set i a = l
  | [], _, _, h => by simp at h
  | x :: xs, 0, a, h => by
    simp only [List.getElem?_cons_zero, Option.some.injEq] at h
    simp [h]
  | x :: xs, i + 1, a, h => by
    simp only [List.getElem?_cons_succ] at h
    simp [set_eq_self h]

/-- A call that holds the lock sees it held. -/
theorem Thread.ok_locked {mid : UUID} {db0 db : Store} {t : Thread} (h : t.ok mid db0 db)
    (hcs : t.pc.inCS = true) : db.locked = true := by
  obtain ⟨-, -, -, -, h⟩ := h
  cases hpc : t.pc with
  | atLock => simp [hpc, Pc.inCS] at hcs
  | atFirst => simpa [hpc] using h
  | atCreateModel => rw [hpc] at h; exact h.1
  | atUnlockFailed e => rw [hpc] at h; exact h.elim
  | atUnlock m => rw [hpc] at h; exact h.1
  | atCreateComponent m => simp [hpc, Pc.inCS] at hcs
  | done id err => simp [hpc, Pc.inCS] at hcs

/-- What holds of a call keeps holding when the store changes under it, as long
as a stored model stays stored and, if the call holds the lock, the lock
stays held and the presence of the model is unchanged. -/
theorem Thread.ok_mono {mid : UUID} {db0 db db1 : Store} {t : Thread} (h : t.ok mid db0 db)
    (hcs : t.pc.inCS = true → db1.locked = true ∧ db1.hasModel mid = db.hasModel mid)
    (hup : db.hasModel mid = true → db1.hasModel mid = true) : t.ok mid db0 db1 := by
  obtain ⟨h1, h2, h3, h4, h⟩ := h
  refine ⟨h1, h2, h3, h4, ?_⟩
  cases hpc : t.pc with
  | atLock => trivial
  | atFirst => exact (hcs (by simp [hpc, Pc.inCS])).1
  | atCreateModel =>
    rw [hpc] at h
    have := hcs (by simp [hpc, Pc.inCS])
    exact ⟨this.1, by rw [this.2]; exact h.2⟩
  | atUnlockFailed e => rw [hpc] at h; exact h.elim
  | atUnlock m =>
    rw [hpc] at h
    exact ⟨(hcs (by simp [hpc, Pc.inCS])).1, h.2.1, hup h.2.2⟩
  | atCreateComponent m =>
    rw [hpc] at h
    exact ⟨h.1, hup h.2⟩
  | done id err =>
    rw [hpc] at h
    exact ⟨h.1, h.2.1, hup h.2.2⟩

/-- The invariant is kept by a move of call `i` from `t.pc` to `pc` that
changes the store from `cfg.db` to `db1`, provided the new position is sound,
the lock follows the position, a model row is added only by the call holding
the lock when none is stored, and a component row is added exactly on return. -/
theorem RegistryInv.move {mid : UUID} {db0 : Store} {cs : List ComponentDefinition}
    {cfg : Config} (inv : RegistryInv mid db0 cs cfg) (i : Nat) (t : Thread) (pc : Pc)
    (db1 : Store) (ht : cfg.threads[i]? = some t)
    (hnew : Thread.ok mid db0 db1 { t with pc := pc })
    (hin : pc.inCS = true → db1.locked = true ∧
      ∀ (j : Nat) (tj : Thread), j ≠ i → cfg.threads[j]? = some tj → tj.pc.inCS = false)
    (hout : pc.inCS = false →
      (t.pc.inCS = true → db1.locked = false) ∧ (t.pc.inCS = false → db1.locked = cfg.db.locked))
    (hmodels : db1.models = cfg.db.models ∨
      (cfg.db.hasModel mid = false ∧ t.pc.inCS = true ∧
        ∃ row, db1.models = cfg.db.models ++ [row] ∧ row.ID = mid))
    (hrows : (t.pc.isDone = false ∧ pc.isDone = false ∧ db1.components = cfg.db.components) ∨
      (t.pc.isDone = false ∧ pc.isDone = true ∧
        db1.components = cfg.db.components ++
          [{ t.c.GetComponentDefinitionDB with ModelID := mid }])) :
    RegistryInv mid db0 cs ⟨cfg.threads.set i { t with pc := pc }, db1⟩ := by
  have hup : cfg.db.hasModel mid = true → db1.hasModel mid = true := by
    intro h
    rcases hmodels with hm | ⟨hm, -, -⟩
    · simp only [Store.hasModel, hm]; exact h
    · rw [hm] at h; exact absurd h (by simp)
  refine ⟨?_, ?_, ?_, ?_, ?_, ?_⟩
  · intro j tj hj
    rcases getElem?_set_cases hj with ⟨-, rfl⟩ | ⟨hne, hj⟩
    · exact hnew
    · refine Thread.ok_mono (inv.ok j tj hj) ?_ hup
      intro hcs
      have htcs : t.pc.inCS = false := by
        by_contra hc
        exact hne (inv.excl j i tj t hj ht hcs (by simpa using hc))
      have hpcs : pc.inCS = false := by
        by_contra hc
        have := (hin (by simpa using hc)).2 j tj hne hj
        simp [hcs] at this
      refine ⟨?_, ?_⟩
      · rw [(hout hpcs).2 htcs]
        exact Thread.ok_locked (inv.ok j tj hj) hcs
      · rcases hmodels with hm | ⟨-, hm, -⟩
        · simp only [Store.hasModel, hm]
        · simp [htcs] at hm
  · intro a b ta tb ha hb hca hcb
    rcases getElem?_set_cases ha with ⟨rfl, rfl⟩ | ⟨hna, ha1⟩
    · rcases getElem?_set_cases hb with ⟨rfl, -⟩ | ⟨hnb, hb1⟩
      · rfl
      · have := (hin hca).2 b tb hnb hb1
        simp [hcb] at this
    · rcases getElem?_set_cases hb with ⟨rfl, rfl⟩ | ⟨hnb, hb1⟩
      · have := (hin hcb).2 a ta hna ha1
        simp [hca] at this
      · exact inv.excl a b ta tb ha1 hb1 hca hcb
  · intro hl
    have hlen : i < cfg.threads.length := (List.getElem?_eq_some.1 ht).1
    by_cases hpcs : pc.inCS = true
    · exact ⟨i, { t with pc := pc }, by simp [List.getElem?_set, hlen], hpcs⟩
    · simp only [Bool.not_eq_true] at hpcs
      by_cases htcs : t.pc.inCS = true
      · rw [(hout hpcs).1 htcs] at hl
        simp at hl
      · simp only [Bool.not_eq_true] at htcs
        simp only at hl
        rw [(hout hpcs).2 htcs] at hl
        obtain ⟨j, tj, hj, hcs⟩ := inv.held hl
        have hne : i ≠ j := by
          intro e
          subst e
          rw [ht] at hj
          cases hj
          simp [htcs] at hcs
        exact ⟨j, tj, by simp [List.getElem?_set, hne, hj], hcs⟩
  · have hlen : i < cfg.threads.length := (List.getElem?_eq_some.1 ht).1
    have hc := inv.comps
    simp only [List.map_set]
    rw [hc]
    have : cs[i]? = some t.c := by rw [← hc]; simp [List.getElem?_map, ht]
    exact set_eq_self this
  · obtain ⟨extra, he, hx⟩ := inv.models
    rcases hmodels with hm | ⟨hno, -, row, hm, hrow⟩
    · exact ⟨extra, by simp only [hm, he], hx⟩
    · have hnone : extra = [] := by
        rcases hx with hx | ⟨-, row1, hx, hr1⟩
        · exact hx
        · rw [Store.hasModel, he, hx] at hno
          simp [hr1] at hno
      have h0 : db0.hasModel mid = false := by
        rw [Store.hasModel, he, hnone] at hno
        simpa [Store.hasModel] using hno
      exact ⟨[row], by simp only [hm, he, hnone, List.append_nil], Or.inr ⟨h0, row, rfl, hrow⟩⟩
  · obtain ⟨w, hw, hp⟩ := inv.rows
    rcases hrows with ⟨h1, h2, hcomp⟩ | ⟨h1, h2, hcomp⟩
    · refine ⟨w, by simp only [hcomp, hw], ?_⟩
      have := filterMap_set_none
        (fun t : Thread => if t.pc.isDone then
          some { t.c.GetComponentDefinitionDB with ModelID := mid } else Option.none)
        cfg.threads i t { t with pc := pc } ht (by simp [h1]) (by simp [h2])
      simp only [doneRows]
      rw [this]
      exact hp
    · refine ⟨w ++ [{ t.c.GetComponentDefinitionDB with ModelID := mid }],
        by simp only [hcomp, hw, List.append_assoc], ?_⟩
      have := filterMap_set_some
        (fun t : Thread => if t.pc.isDone then
          some { t.c.GetComponentDefinitionDB with ModelID := mid } else Option.none)
        cfg.threads i t { t with pc := pc }
        { t.c.GetComponentDefinitionDB with ModelID := mid } ht (by simp [h1]) (by simp [h2])
      simp only [doneRows]
      refine List.Perm.trans ?_ this.symm
      exact (List.perm_append_singleton _ _).trans (List.Perm.cons _ hp)

/-- The component identifier of a call that has not returned is not stored yet. -/
theorem RegistryInv.fresh {mid : UUID} {db0 : Store} {cs : List ComponentDefinition}
    {cfg : Config} (inv : RegistryInv mid db0 cs cfg)
    (hnodup : (cs.map fun c => c.ID).Nodup) (i : Nat) (t : Thread)
    (ht : cfg.threads[i]? = some t) (hnd : t.pc.isDone = false) :
    ∀ r ∈ cfg.db.components, r.ID ≠ t.c.ID := by
  intro r hr
  obtain ⟨w, hw, hp⟩ := inv.rows
  rw [hw] at hr
  rcases List.mem_append.1 hr with hr | hr
  · exact (inv.ok i t ht).2.2.2.1 r hr
  · have hr2 := hp.mem_iff.1 hr
    simp only [doneRows, List.mem_filterMap] at hr2
    obtain ⟨t1, ht1, hrow⟩ := hr2
    obtain ⟨j, hj⟩ := List.getElem?_of_mem ht1
    by_cases hd : t1.pc.isDone = true
    · simp only [hd, if_true, Option.some.injEq] at hrow
      intro e
      have hid : t1.c.ID = t.c.ID := by rw [← e, ← hrow]; rfl
      have hci : (cs.map fun c => c.ID)[i]? = some t.c.ID := by
        rw [← inv.comps]; simp [List.getElem?_map, ht]
      have hcj : (cs.map fun c => c.ID)[j]? = some t1.c.ID := by
        rw [← inv.comps]; simp [List.getElem?_map, hj]
      have hij : i = j := by
        by_contra hne
        have hlen_i : i < (cs.map fun c => c.ID).length := (List.getElem?_eq_some.1 hci).1
        have hlen_j : j < (cs.map fun c => c.ID).length := (List.getElem?_eq_some.1 hcj).1
        rcases Nat.lt_or_gt_of_ne hne with hlt | hlt
        · exact List.nodup_iff_getElem?_ne_getElem?.1 hnodup i j hlt hlen_j (by rw [hci, hcj, hid])
        · exact List.nodup_iff_getElem?_ne_getElem?.1 hnodup j i hlt hlen_i (by rw [hci, hcj, hid])
      subst hij
      rw [ht] at hj
      cases hj
      simp [hnd] at hd
    · simp [hd] at hrow

/-- The invariant is kept by every step of the scheduler. -/
theorem RegistryInv.stepAt {mid : UUID} {db0 : Store} {cs : List ComponentDefinition}
    {cfg : Config} (inv : RegistryInv mid db0 cs cfg)
    (hnodup : (cs.map fun c => c.ID).Nodup) (i : Nat) :
    RegistryInv mid db0 cs (cfg.stepAt i) := by
  unfold Config.stepAt
  cases ht : cfg.threads[i]? with
  | none => exact inv
  | some t =>
    simp only []
    cases hs : t.step cfg.db with
    | none => exact inv
    | some r =>
      obtain ⟨pc, db1⟩ := r
      simp only []
      have hok := inv.ok i t ht
      obtain ⟨hmid, hflt, htemp, hfresh0, hpos⟩ := hok
      have others : t.pc.inCS = true →
          ∀ (j : Nat) (tj : Thread), j ≠ i → cfg.threads[j]? = some tj → tj.pc.inCS = false := by
        intro hcs j tj hne hj
        by_contra hc
        exact hne (inv.excl j i tj t hj ht (by simpa using hc) hcs)
      unfold Thread.step at hs
      cases hpc : t.pc with
      | atLock =>
        rw [hpc] at hs
        simp only at hs
        by_cases hl : cfg.db.locked = true
        · simp [hl] at hs
        · simp only [hl, if_false, Option.some.injEq, Prod.mk.injEq] at hs
          obtain ⟨rfl, rfl⟩ := hs
          refine inv.move i t Pc.atFirst { cfg.db with locked := true } ht
            ⟨hmid, hflt, htemp, hfresh0, rfl⟩ ?_ ?_ (Or.inl rfl) ?_
          · intro _
            refine ⟨rfl, ?_⟩
            intro j tj _ hj
            by_contra hc
            exact hl (Thread.ok_locked (inv.ok j tj hj) (by simpa using hc))
          · intro hc
            simp [Pc.inCS] at hc
          · exact Or.inl ⟨by simp [hpc, Pc.isDone], rfl, rfl⟩
      | atFirst =>
        rw [hpc] at hs hpos
        have hcs : t.pc.inCS = true := by simp [hpc, Pc.inCS]
        simp only [hflt, Faults.none, hmid, dbFirst] at hs
        cases hfind : cfg.db.models.find? (fun m => m.ID == mid) with
        | none =>
          simp only [hfind, ne_eq, not_true_eq_false, and_false, if_false, or_true, if_true,
            Option.some.injEq, Prod.mk.injEq, reduceCtorEq, not_false_eq_true] at hs
          obtain ⟨rfl, rfl⟩ := hs
          have hno : cfg.db.hasModel mid = false := by
            rw [Store.hasModel, any_ID_iff_find, hfind]; rfl
          refine inv.move i t Pc.atCreateModel
            { cfg.db with calls := cfg.db.calls ++ [DbCall.first mid] } ht
            ⟨hmid, hflt, htemp, hfresh0, And.intro hpos hno⟩ ?_ ?_ (Or.inl rfl) ?_
          · intro _
            exact ⟨hpos, others hcs⟩
          · intro hc
            simp [Pc.inCS] at hc
          · exact Or.inl ⟨by simp [hpc, Pc.isDone], rfl, rfl⟩
        | some m =>
          have hm := find_ID_eq hfind
          have hne : ¬ (m.ID = t.tempModelID) := by
            rw [hm]; exact fun e => htemp e.symm
          simp only [hfind, ne_eq, not_true_eq_false, false_and, if_false, hne, reduceCtorEq,
            or_self, Option.some.injEq, Prod.mk.injEq] at hs
          obtain ⟨rfl, rfl⟩ := hs
          have hyes : cfg.db.hasModel mid = true := by
            rw [Store.hasModel, any_ID_iff_find, hfind]; rfl
          refine inv.move i t (Pc.atUnlock m)
            { cfg.db with calls := cfg.db.calls ++ [DbCall.first mid] } ht
            ⟨hmid, hflt, htemp, hfresh0, And.intro hpos (And.intro hm hyes)⟩ ?_ ?_
            (Or.inl rfl) ?_
          · intro _
            exact ⟨hpos, others hcs⟩
          · intro hc
            simp [Pc.inCS] at hc
          · exact Or.inl ⟨by simp [hpc, Pc.isDone], rfl, rfl⟩
      | atCreateModel =>
        rw [hpc] at hs hpos
        have hcs : t.pc.inCS = true := by simp [hpc, Pc.inCS]
        have hany : cfg.db.models.any (fun m => m.ID == mid) = false := hpos.2
        simp only [hflt, Faults.none, hmid, dbCreateModel, hany, Bool.false_eq_true, if_false,
          Option.some.injEq, Prod.mk.injEq] at hs
        obtain ⟨rfl, rfl⟩ := hs
        have hyes : Store.hasModel
            { cfg.db with
              calls := cfg.db.calls ++ [DbCall.createModel { t.c.Model with ID := mid }]
              models := cfg.db.models ++ [{ t.c.Model with ID := mid }] } mid = true := by
          simp [Store.hasModel]
        refine inv.move i t (Pc.atUnlock { t.c.Model with ID := mid })
          { cfg.db with
            calls := cfg.db.calls ++ [DbCall.createModel { t.c.Model with ID := mid }]
            models := cfg.db.models ++ [{ t.c.Model with ID := mid }] } ht
          ⟨hmid, hflt, htemp, hfresh0, And.intro hpos.1 (And.intro rfl hyes)⟩ ?_ ?_
          (Or.inr ⟨hpos.2, hcs, { t.c.Model with ID := mid }, rfl, rfl⟩) ?_
        · intro _
          exact ⟨hpos.1, others hcs⟩
        · intro hc
          simp [Pc.inCS] at hc
        · exact Or.inl ⟨by simp [hpc, Pc.isDone], rfl, rfl⟩
      | atUnlockFailed e =>
        rw [hpc] at hpos
        exact hpos.elim
      | atUnlock m =>
        rw [hpc] at hs hpos
        have hcs : t.pc.inCS = true := by simp [hpc, Pc.inCS]
        simp only [Option.some.injEq, Prod.mk.injEq] at hs
        obtain ⟨rfl, rfl⟩ := hs
        refine inv.move i t (Pc.atCreateComponent m) { cfg.db with locked := false } ht
          ⟨hmid, hflt, htemp, hfresh0, And.intro hpos.2.1 hpos.2.2⟩ ?_ ?_ (Or.inl rfl) ?_
        · intro hc
          simp [Pc.inCS] at hc
        · intro _
          exact ⟨fun _ => rfl, fun hc => by simp [hcs] at hc⟩
        · exact Or.inl ⟨by simp [hpc, Pc.isDone], rfl, rfl⟩
      | atCreateComponent m =>
        rw [hpc] at hs hpos
        have hncs : t.pc.inCS = false := by simp [hpc, Pc.inCS]
        have hfresh := inv.fresh hnodup i t ht (by simp [hpc, Pc.isDone])
        have hany : cfg.db.components.any (fun r => r.ID == t.c.ID) = false := by
          rw [Bool.eq_false_iff]
          intro h
          rw [List.any_eq_true] at h
          obtain ⟨r, hr, hr2⟩ := h
          exact hfresh r hr (by simpa using hr2)
        have hid : t.c.GetComponentDefinitionDB.ID = t.c.ID := rfl
        simp only [hflt, Faults.none, dbCreateComponent, hid, hany, Bool.false_eq_true, if_false,
          Option.some.injEq, Prod.mk.injEq, Option.map_none'] at hs
        obtain ⟨rfl, rfl⟩ := hs
        refine inv.move i t (Pc.done t.c.ID Option.none)
          { cfg.db with
            calls := cfg.db.calls ++
              [DbCall.createComponent { t.c.GetComponentDefinitionDB with ModelID := m.ID }]
            components := cfg.db.components ++
              [{ t.c.GetComponentDefinitionDB with ModelID := m.ID }] } ht
          ⟨hmid, hflt, htemp, hfresh0, And.intro rfl (And.intro rfl hpos.2)⟩ ?_ ?_
          (Or.inl rfl) ?_
        · intro hc
          simp [Pc.inCS] at hc
        · intro _
          exact ⟨fun hc => by simp [hncs] at hc, fun _ => rfl⟩
        · refine Or.inr ⟨by simp [hpc, Pc.isDone], rfl, ?_⟩
          simp only [hpos.1]
      | done id err =>
        rw [hpc] at hs
        simp at hs

/-- The invariant holds after every interleaving. -/
theorem RegistryInv.run {mid : UUID} {db0 : Store} {cs : List ComponentDefinition}
    (hnodup : (cs.map fun c => c.ID).Nodup) (sched : List Nat) :
    ∀ {cfg : Config}, RegistryInv mid db0 cs cfg → RegistryInv mid db0 cs (cfg.run sched) := by
  induction sched with
  | nil => exact fun inv => inv
  | cons i rest ih => exact fun inv => ih (inv.stepAt hnodup i)

/-- A call whose model serialises starts at the lock with the locals of
lines 76 to 82. -/
theorem spawn_of_marshal (env : Env) (flt : Faults) (rnd1 rnd2 byt : List Nat)
    (c : ComponentDefinition) (h : env.marshalModel c.Model = .ok byt) :
    spawn env flt rnd1 rnd2 c =
      ⟨{ c with ID := uuid.New rnd1 }, uuid.New rnd2, uuid.NewSHA1 env.sha1 UUID.Nil byt, flt,
        Pc.atLock⟩ := by
  simp [spawn, h]

/-- The invariant holds at the start. -/
theorem RegistryInv.start (env : Env) (db0 : Store)
    (calls : List (ComponentDefinition × List Nat × List Nat)) (byt : List Nat)
    (hfree : db0.locked = false)
    (hbyt : ∀ call ∈ calls, env.marshalModel call.1.Model = .ok byt)
    (hfresh : ∀ r ∈ db0.components, ∀ call ∈ calls, r.ID ≠ uuid.New call.2.1) :
    RegistryInv (uuid.NewSHA1 env.sha1 UUID.Nil byt) db0
      (calls.map fun call => { call.1 with ID := uuid.New call.2.1 })
      (Config.start env db0 calls) := by
  have hthread : ∀ (i : Nat) (t : Thread), (Config.start env db0 calls).threads[i]? = some t →
      ∃ call ∈ calls, t = ⟨{ call.1 with ID := uuid.New call.2.1 }, uuid.New call.2.2,
        uuid.NewSHA1 env.sha1 UUID.Nil byt, Faults.none, Pc.atLock⟩ := by
    intro i t ht
    simp only [Config.start, List.getElem?_map, Option.map_eq_some'] at ht
    obtain ⟨call, hc, rfl⟩ := ht
    have hmem : call ∈ calls := List.getElem?_mem hc
    exact ⟨call, hmem, spawn_of_marshal env Faults.none _ _ byt _ (hbyt call hmem)⟩
  refine ⟨?_, ?_, ?_, ?_, ?_, ?_⟩
  · intro i t ht
    obtain ⟨call, hmem, rfl⟩ := hthread i t ht
    exact ⟨rfl, rfl, uuid.New_ne_NewSHA1 _ _ _ _, fun r hr => hfresh r hr call hmem, trivial⟩
  · intro i j ti tj hi _ hci _
    obtain ⟨call, -, rfl⟩ := hthread i ti hi
    simp [Pc.inCS] at hci
  · intro hl
    simp [Config.start, hfree] at hl
  · simp only [Config.start, List.map_map]
    apply List.map_congr_left
    intro call hmem
    simp [spawn_of_marshal env Faults.none _ _ byt _ (hbyt call hmem)]
  · exact ⟨[], by simp [Config.start], Or.inl rfl⟩
  · refine ⟨[], by simp [Config.start], ?_⟩
    have : doneRows (uuid.NewSHA1 env.sha1 UUID.Nil byt) (Config.start env db0 calls).threads = [] := by
      simp only [doneRows, List.filterMap_eq_nil_iff]
      intro t ht
      obtain ⟨i, hi⟩ := List.getElem?_of_mem ht
      obtain ⟨call, -, rfl⟩ := hthread i t hi
      simp [Pc.isDone]
    rw [this]

/-- A call that holds the lock can always move. -/
theorem Thread.step_isSome_of_inCS (t : Thread) (db : Store) (h : t.pc.inCS = true) :
    (t.step db).isSome = true := by
  unfold Thread.step
  cases hpc : t.pc with
  | atLock => simp [hpc, Pc.inCS] at h
  | atFirst =>
    simp only []
    split_ifs <;> rfl
  | atCreateModel =>
    simp only []
    split <;> rfl
  | atUnlockFailed e => rfl
  | atUnlock m => rfl
  | atCreateComponent m => rfl
  | done id err => simp [hpc, Pc.inCS] at h

/-- While some call has not returned, some call can move. -/
theorem RegistryInv.progress {mid : UUID} {db0 : Store} {cs : List ComponentDefinition}
    {cfg : Config} (inv : RegistryInv mid db0 cs cfg) (h : cfg.allDone = false) :
    ∃ i, i < cfg.threads.length ∧ cfg.enabled i = true := by
  by_cases hl : cfg.db.locked = true
  · obtain ⟨i, t, ht, hcs⟩ := inv.held hl
    refine ⟨i, (List.getElem?_eq_some.1 ht).1, ?_⟩
    simp only [Config.enabled, ht]
    exact Thread.step_isSome_of_inCS t cfg.db hcs
  · have hex : ∃ t ∈ cfg.threads, t.pc.isDone = false := by
      by_contra hc
      have : cfg.allDone = true := by
        simp only [Config.allDone, List.all_eq_true]
        intro t ht
        by_contra hd
        exact hc ⟨t, ht, by simpa using hd⟩
      simp [this] at h
    obtain ⟨t, hmem, hnd⟩ := hex
    obtain ⟨i, ht⟩ := List.getElem?_of_mem hmem
    refine ⟨i, (List.getElem?_eq_some.1 ht).1, ?_⟩
    simp only [Config.enabled, ht]
    by_cases hcs : t.pc.inCS = true
    · exact absurd (Thread.ok_locked (inv.ok i t ht) hcs) hl
    · unfold Thread.step
      cases hpc : t.pc with
      | atLock => simp [hl]
      | atFirst => simp [hpc, Pc.inCS] at hcs
      | atCreateModel => simp [hpc, Pc.inCS] at hcs
      | atUnlockFailed e => simp [hpc, Pc.inCS] at hcs
      | atUnlock m => simp [hpc, Pc.inCS] at hcs
      | atCreateComponent m => rfl
      | done id err => simp [hpc, Pc.isDone] at hnd

/-- No step raises the bound on the steps left. -/
theorem Config.stepAt_remaining_le (cfg : Config) (i : Nat) :
    (cfg.stepAt i).remaining ≤ cfg.remaining := by
  by_cases h : cfg.enabled i = true
  · exact Nat.le_of_lt (cfg.stepAt_remaining i h)
  · have : cfg.stepAt i = cfg := by
      unfold Config.enabled at h
      unfold Config.stepAt
      cases ht : cfg.threads[i]? with
      | none => rfl
      | some t =>
        simp only [ht] at h ⊢
        cases hs : t.step cfg.db with
        | none => rfl
        | some r => simp [hs] at h
    rw [this]

/-- No interleaving raises the bound on the steps left. -/
theorem Config.run_remaining_le (sched : List Nat) :
    ∀ (cfg : Config), (cfg.run sched).remaining ≤ cfg.remaining := by
  induction sched with
  | nil => exact fun cfg => Nat.le_refl _
  | cons i rest ih =>
    exact fun cfg => Nat.le_trans (ih (cfg.stepAt i)) (cfg.stepAt_remaining_le i)

/-- At the start every call has five steps left. -/
theorem Config.start_remaining (env : Env) (db0 : Store)
    (calls : List (ComponentDefinition × List Nat × List Nat)) (byt : List Nat)
    (hbyt : ∀ call ∈ calls, env.marshalModel call.1.Model = .ok byt) :
    (Config.start env db0 calls).remaining = 5 * calls.length := by
  simp only [Config.remaining, Config.start, List.map_map]
  induction calls with
  | nil => rfl
  | cons call rest ih =>
    have h1 := hbyt call (List.mem_cons_self _ _)
    have h2 := ih (fun c hc => hbyt c (List.mem_cons_of_mem _ hc))
    simp only [List.map_cons, List.sum_cons, List.length_cons, Function.comp,
      spawn_of_marshal env Faults.none _ _ byt _ h1, Pc.remaining] at h2 ⊢
    omega

/-- What the invariant gives once every call has returned. -/
theorem RegistryInv.final {mid : UUID} {db0 : Store} {cs : List ComponentDefinition}
    {cfg : Config} (inv : RegistryInv mid db0 cs cfg) (hdone : cfg.allDone = true)
    (hkey : (db0.models.filter fun m => m.ID == mid).length ≤ 1) :
    cfg.threads.map (fun t => t.pc) = cs.map (fun c => Pc.done c.ID Option.none) ∧
    (cs ≠ [] → (cfg.db.models.filter fun m => m.ID == mid).length = 1) ∧
    (∃ extra, cfg.db.models = db0.models ++ extra ∧ extra.length ≤ 1 ∧
      ∀ m ∈ extra, m.ID = mid) ∧
    (∃ w, cfg.db.components = db0.components ++ w ∧
      w.Perm (cs.map fun c => { c.GetComponentDefinitionDB with ModelID := mid })) ∧
    cfg.db.locked = false := by
  have hall : ∀ t ∈ cfg.threads, t.pc = Pc.done t.c.ID Option.none ∧ cfg.db.hasModel mid = true := by
    intro t ht
    have hd : t.pc.isDone = true := by
      simp only [Config.allDone, List.all_eq_true] at hdone
      exact hdone t ht
    obtain ⟨i, hi⟩ := List.getElem?_of_mem ht
    obtain ⟨-, -, -, -, hpos⟩ := inv.ok i t hi
    cases hpc : t.pc with
    | done id err =>
      rw [hpc] at hpos
      obtain ⟨rfl, rfl, hm⟩ := hpos
      exact ⟨rfl, hm⟩
    | atLock => simp [hpc, Pc.isDone] at hd
    | atFirst => simp [hpc, Pc.isDone] at hd
    | atCreateModel => simp [hpc, Pc.isDone] at hd
    | atUnlockFailed e => simp [hpc, Pc.isDone] at hd
    | atUnlock m => simp [hpc, Pc.isDone] at hd
    | atCreateComponent m => simp [hpc, Pc.isDone] at hd
  obtain ⟨extra, he, hx⟩ := inv.models
  refine ⟨?_, ?_, ?_, ?_, ?_⟩
  · rw [← inv.comps, List.map_map]
    apply List.map_congr_left
    intro t ht
    exact (hall t ht).1
  · intro hne
    have hthreads : cfg.threads ≠ [] := by
      intro e
      rw [← inv.comps, e] at hne
      exact hne rfl
    obtain ⟨t, ht⟩ := List.exists_mem_of_ne_nil _ hthreads
    have hm := (hall t ht).2
    rw [he, List.filter_append, List.length_append]
    rcases hx with hx | ⟨h0, row, hx, hrow⟩
    · subst hx
      simp only [List.filter_nil, List.length_nil, Nat.add_zero]
      have hpos : 0 < (db0.models.filter fun m => m.ID == mid).length := by
        rw [Store.hasModel, he, List.append_nil, List.any_eq_true] at hm
        obtain ⟨m, hm1, hm2⟩ := hm
        exact List.length_pos_of_mem (List.mem_filter.2 ⟨hm1, hm2⟩)
      omega
    · subst hx
      have hzero : (db0.models.filter fun m => m.ID == mid) = [] := by
        rw [List.filter_eq_nil_iff]
        intro m hm1 hm2
        have : db0.hasModel mid = true := by
          rw [Store.hasModel, List.any_eq_true]
          exact ⟨m, hm1, hm2⟩
        rw [h0] at this
        cases this
      simp [hzero, hrow]
  · refine ⟨extra, he, ?_, ?_⟩
    · rcases hx with hx | ⟨-, row, hx, -⟩ <;> simp [hx]
    · intro m hm
      rcases hx with hx | ⟨-, row, hx, hrow⟩
      · simp [hx] at hm
      · rw [hx, List.mem_singleton] at hm
        rw [hm]; exact hrow
  · obtain ⟨w, hw, hp⟩ := inv.rows
    refine ⟨w, hw, ?_⟩
    have : doneRows mid cfg.threads =
        cs.map fun c => { c.GetComponentDefinitionDB with ModelID := mid } := by
      rw [← inv.comps, List.map_map]
      exact filterMap_eq_map_of_some _ _ cfg.threads (fun t ht => by simp [(hall t ht).1, Pc.isDone])
    rw [← this]
    exact hp
  · by_contra hl
    obtain ⟨i, t, ht, hcs⟩ := inv.held (by simpa using hl)
    have := (hall t (List.getElem?_mem ht)).1
    simp [this, Pc.inCS] at hcs

/-- C8 (concurrent safety). For `N` concurrent calls whose models serialise to
the same bytes, started with the lock free on a store with at most one row
under the content-derived identifier, no storage call failing for a reason
of the engine and the fresh component identifiers unused and distinct, and
for every interleaving `sched` of their steps: as long as some call has not
returned some call can move; every move lowers a bound that starts at `5 * N`,
so an interleaving cannot move forever; and once all calls have returned,
each has returned its component identifier with a nil error, the `models`
table holds exactly one row under the identifier (at most one row was
added), the `components` table has gained the `N` rows, all referencing the
identifier, and the lock is free. -/
theorem CreateComponent_concurrent (env : Env) (db0 : Store)
    (calls : List (ComponentDefinition × List Nat × List Nat)) (byt : List Nat)
    (sched : List Nat)
    (hfree : db0.locked = false)
    (hbyt : ∀ call ∈ calls, env.marshalModel call.1.Model = .ok byt)
    (hnodup : (calls.map fun call => uuid.New call.2.1).Nodup)
    (hfresh : ∀ r ∈ db0.components, ∀ call ∈ calls, r.ID ≠ uuid.New call.2.1)
    (hkey : (db0.models.filter fun m => m.ID == uuid.NewSHA1 env.sha1 UUID.Nil byt).length ≤ 1) :
    (((Config.start env db0 calls).run sched).allDone = false →
      ∃ i, i < calls.length ∧ ((Config.start env db0 calls).run sched).enabled i = true) ∧
    (∀ i, ((Config.start env db0 calls).run sched).enabled i = true →
      (((Config.start env db0 calls).run sched).stepAt i).remaining <
        ((Config.start env db0 calls).run sched).remaining) ∧
    ((Config.start env db0 calls).run sched).remaining ≤ 5 * calls.length ∧
    (((Config.start env db0 calls).run sched).allDone = true →
      ((Config.start env db0 calls).run sched).threads.map (fun t => t.pc) =
        calls.map (fun call => Pc.done (uuid.New call.2.1) Option.none) ∧
      (calls ≠ [] →
        (((Config.start env db0 calls).run sched).db.models.filter
          fun m => m.ID == uuid.NewSHA1 env.sha1 UUID.Nil byt).length = 1) ∧
      (∃ extra, ((Config.start env db0 calls).run sched).db.models = db0.models ++ extra ∧
        extra.length ≤ 1 ∧ ∀ m ∈ extra, m.ID = uuid.NewSHA1 env.sha1 UUID.Nil byt) ∧
      (∃ w, ((Config.start env db0 calls).run sched).db.components = db0.components ++ w ∧
        w.Perm (calls.map fun call =>
          { ({ call.1 with ID := uuid.New call.2.1 }).GetComponentDefinitionDB with
            ModelID := uuid.NewSHA1 env.sha1 UUID.Nil byt })) ∧
      ((Config.start env db0 calls).run sched).db.locked = false) := by
  have hnodup2 : ((calls.map fun call =>
      ({ call.1 with ID := uuid.New call.2.1 } : ComponentDefinition)).map fun c => c.ID).Nodup := by
    simpa [List.map_map, Function.comp] using hnodup
  have inv := RegistryInv.run hnodup2 sched
    (RegistryInv.start env db0 calls byt hfree hbyt hfresh)
  have hlen : ((Config.start env db0 calls).run sched).threads.length = calls.length := by
    have := congrArg List.length inv.comps
    simpa using this
  refine ⟨?_, ?_, ?_, ?_⟩
  · intro h
    obtain ⟨i, hi, he⟩ := inv.progress h
    exact ⟨i, hlen ▸ hi, he⟩
  · exact fun i h => Config.stepAt_remaining _ i h
  · rw [← Config.start_remaining env db0 calls byt hbyt]
    exact Config.run_remaining_le sched _
  · intro hdone
    obtain ⟨h1, h2, h3, h4, h5⟩ := inv.final hdone hkey
    refine ⟨?_, ?_, h3, ?_, h5⟩
    · rw [h1, List.map_map]; rfl
    · intro hne
      exact h2 (by simpa using hne)
    · obtain ⟨w, hw, hp⟩ := h4
      refine ⟨w, hw, ?_⟩
      rw [List.map_map] at hp
      exact hp

/-- C8 at a concrete input: three concurrent calls carrying `istioModel`, on
the empty store, under an interleaving in which the second and third call find
the lock held. All three return their identifier with a nil error, one model
row is stored, and the three component rows are stored in the order in which
the calls reached their component write. -/
theorem CreateComponent_concurrent_witness :
    ((Config.start demoEnv emptyStore threeCalls).run demoSchedule).allDone = true ∧
    ((Config.start demoEnv emptyStore threeCalls).run demoSchedule).threads.map (fun t => t.pc) =
      [Pc.done (uuid.New [1]) Option.none, Pc.done (uuid.New [3]) Option.none,
        Pc.done (uuid.New [5]) Option.none] ∧
    (((Config.start demoEnv emptyStore threeCalls).run demoSchedule).db.models.filter
      fun m => m.ID == istioID).length = 1 ∧
    ((Config.start demoEnv emptyStore threeCalls).run demoSchedule).db.components.map
      (fun r => (r.Kind, r.ModelID)) = [("Baz", istioID), ("Foo", istioID), ("FooBar", istioID)] := by
  have hdone : ((Config.start demoEnv emptyStore threeCalls).run demoSchedule).allDone = true := by
    decide
  have h := CreateComponent_concurrent demoEnv emptyStore threeCalls
    ("istio".data.map Char.toNat ++ [0] ++ "1.0".data.map Char.toNat) demoSchedule rfl
    (by
      intro call hc
      simp only [threeCalls, List.mem_cons, List.mem_singleton, List.not_mem_nil, or_false] at hc
      rcases hc with rfl | rfl | rfl <;> rfl)
    (by decide) (by simp [emptyStore]) (by decide)
  obtain ⟨h1, h2, -⟩ := h.2.2.2 hdone
  exact ⟨hdone, h1, h2 (by simp [threeCalls]), by decide⟩

/-! ## Queries: `GetMeshModelComponents` -/

/-- The pattern `%` alone matches every text. -/
theorem likeAny_nil (fold : Bool) (s : List Char) : likeAny (like fold []) s = true := by
  induction s with
  | nil => rfl
  | cons c s ih => simp [likeAny, ih]

/-- On an engine whose `LIKE` does not fold case, a name without `%` and `_`
followed by `%` matches exactly the texts that start with the name. -/
theorem like_literal_name (name s : List Char)
    (h : ∀ c ∈ name, c ≠ '%' ∧ c ≠ '_') :
    like false (name ++ ['%']) s = name.isPrefixOf s := by
  induction name generalizing s with
  | nil => simpa [like] using likeAny_nil false s
  | cons p ps ih =>
    have hp := h p (List.mem_cons_self _ _)
    have ih1 := fun s => ih s (fun c hc => h c (List.mem_cons_of_mem _ hc))
    cases s with
    | nil => simp [like, hp.1]
    | cons c cs =>
      have hu : (p == '_') = false := by simpa using hp.2
      simp [like, hp.1, ih1, List.isPrefixOf, likeChar, hu]

/-- With `Greedy` unset and a non-empty name, and no other constraint, the
result holds exactly the joined rows whose kind equals the name. -/
theorem GetMeshModelComponents_exact_name (eng : Engine) (db : Store) (name : String)
    (h : name ≠ "") :
    GetMeshModelComponents eng db { ComponentFilter.zero with Name := name } =
      ((joinModels db).filter fun r => r.1.Kind == name).map
        fun cm => cm.1.GetComponentDefinition cm.2 := by
  simp [GetMeshModelComponents, finderOf, whereAndOrder, ComponentFilter.zero, h, Finder.Scan,
    Finder.Where, Finder.Offset, Where.holds]

/-- With `Greedy` set and a non-empty name, and no other constraint, the result
holds exactly the joined rows whose kind matches the `LIKE` pattern made of
the name followed by `%`. -/
theorem GetMeshModelComponents_greedy_name (eng : Engine) (db : Store) (name : String)
    (h : name ≠ "") :
    GetMeshModelComponents eng db { ComponentFilter.zero with Name := name, Greedy := true } =
      ((joinModels db).filter fun r =>
        like eng.likeFoldsCase (name.data ++ ['%']) r.1.Kind.data).map
        fun cm => cm.1.GetComponentDefinition cm.2 := by
  simp [GetMeshModelComponents, finderOf, whereAndOrder, ComponentFilter.zero, h, Finder.Scan,
    Finder.Where, Finder.Offset, Where.holds]

/-- With an empty name, and no other constraint, every joined row is returned. -/
theorem GetMeshModelComponents_no_name (eng : Engine) (db : Store) (greedy : Bool) :
    GetMeshModelComponents eng db { ComponentFilter.zero with Greedy := greedy } =
      (joinModels db).map fun cm => cm.1.GetComponentDefinition cm.2 := by
  simp [GetMeshModelComponents, finderOf, whereAndOrder, ComponentFilter.zero, Finder.Scan,
    Finder.Offset]

/-- C4 at the failing input: on the store holding `Foo` and `FooBar`, the exact
filter `Foo` returns `Foo` and the greedy filter `Foo` returns both, but the
greedy filter `Fo_` also returns both, and so does the greedy filter `foo`,
although neither name is a leading part of either kind. -/
theorem GetMeshModelComponents_greedy_is_like_pattern :
    (GetMeshModelComponents sqliteEngine fooStore
      { ComponentFilter.zero with Name := "Foo" }).map (fun c => c.Kind) = ["Foo"] ∧
    (GetMeshModelComponents sqliteEngine fooStore
      { ComponentFilter.zero with Name := "Foo", Greedy := true }).map (fun c => c.Kind) =
        ["Foo", "FooBar"] ∧
    (GetMeshModelComponents sqliteEngine fooStore
      { ComponentFilter.zero with Name := "Fo_", Greedy := true }).map (fun c => c.Kind) =
        ["Foo", "FooBar"] ∧
    (GetMeshModelComponents sqliteEngine fooStore
      { ComponentFilter.zero with Name := "foo", Greedy := true }).map (fun c => c.Kind) =
        ["Foo", "FooBar"] ∧
    "Fo_".data.isPrefixOf "Foo".data = false ∧ "Fo_".data.isPrefixOf "FooBar".data = false ∧
    "foo".data.isPrefixOf "Foo".data = false ∧ "foo".data.isPrefixOf "FooBar".data = false := by
  decide

/-- Conditions and ordering leave the offset at zero and set no limit. -/
theorem whereAndOrder_page (f : ComponentFilter) :
    (whereAndOrder f).offset = 0 ∧ (whereAndOrder f).limit = none := by
  constructor
  · simp only [whereAndOrder, apply_ite Finder.offset, Finder.Where, Finder.Order, ite_self]
  · simp only [whereAndOrder, apply_ite Finder.limit, Finder.Where, Finder.Order, ite_self]

/-- The ordering of the statement, read off the filter. -/
theorem whereAndOrder_order (f : ComponentFilter) :
    (whereAndOrder f).order =
      if f.OrderOn ≠ "" then
        if f.SortDir = "desc" then some ⟨f.OrderOn, false, true⟩ else some ⟨f.OrderOn, true, false⟩
      else none := by
  simp only [whereAndOrder, apply_ite Finder.order, Finder.Where, Finder.Order, ite_self]

/-- C5 (pagination). For a filter with offset `O ≥ 0` and limit `L ≥ 0`, the
result is cut from the result of the same filter without pagination (the
matching rows in sort order): all rows from position `O` on when `L = 0`,
and the `L` rows from position `O` on otherwise. -/
theorem GetMeshModelComponents_pagination (eng : Engine) (db : Store) (f : ComponentFilter)
    (hO : 0 ≤ f.Offset) (hL : 0 ≤ f.Limit) :
    GetMeshModelComponents eng db f =
      if f.Limit = 0 then
        (GetMeshModelComponents eng db { f with Offset := 0, Limit := 0 }).drop f.Offset.toNat
      else
        ((GetMeshModelComponents eng db { f with Offset := 0, Limit := 0 }).drop
          f.Offset.toNat).take f.Limit.toNat := by
  have hdrop : ∀ rows : List componentDefinitionWithModel,
      (if 0 < f.Offset then rows.drop f.Offset.toNat else rows) = rows.drop f.Offset.toNat := by
    intro rows
    split
    · rfl
    · have : f.Offset = 0 := by omega
      simp [this]
  have hlim := (whereAndOrder_page f).2
  have h0 : finderOf { f with Offset := 0, Limit := 0 } = { whereAndOrder f with offset := 0 } := rfl
  have h1 : finderOf f =
      { whereAndOrder f with offset := f.Offset, limit := if f.Limit = 0 then none else some f.Limit } := by
    by_cases hl : f.Limit = 0
    · simp [finderOf, hl, Finder.Offset, hlim]
    · simp [finderOf, hl, Finder.Offset, Finder.Limit]
  unfold GetMeshModelComponents
  rw [h0, h1]
  simp only [Finder.Scan, hlim, lt_irrefl, if_false, hdrop]
  generalize (match (whereAndOrder f).order with
      | none => (Except.ok ((joinModels db).filter fun r =>
          (whereAndOrder f).wheres.all fun w => w.holds eng r) :
            Except DbErr (List componentDefinitionWithModel))
      | some o => eng.orderBy o ((joinModels db).filter fun r =>
          (whereAndOrder f).wheres.all fun w => w.holds eng r)) = sorted
  cases sorted with
  | error e => simp
  | ok rows =>
    by_cases hl : f.Limit = 0
    · simp [hl, List.map_drop]
    · simp [hl, hL, List.map_drop, List.map_take]

/-- C5 at a concrete input: with ten matching rows, limit 3 and offset 2 give
the third to fifth row, and limit 0 gives all ten. -/
theorem GetMeshModelComponents_pagination_witness :
    (GetMeshModelComponents sqliteEngine tenStore
      { ComponentFilter.zero with Limit := 3, Offset := 2 }).map (fun c => c.Kind) =
        ["c03", "c04", "c05"] ∧
    (GetMeshModelComponents sqliteEngine tenStore
      { ComponentFilter.zero with Limit := 0 }).map (fun c => c.Kind) =
        ["c01", "c02", "c03", "c04", "c05", "c06", "c07", "c08", "c09", "c10"] := by
  constructor
  · rw [GetMeshModelComponents_pagination sqliteEngine tenStore
      { ComponentFilter.zero with Limit := 3, Offset := 2 } (by decide) (by decide)]
    decide
  · rw [GetMeshModelComponents_pagination sqliteEngine tenStore
      { ComponentFilter.zero with Limit := 0 } (by decide) (by decide)]
    decide

/-- The ordering clause of the statement: none when `OrderOn` is empty; otherwise
one clause named `OrderOn`, whose `Desc` flag is set exactly when `Sort` is
the string `desc`, and which is raw exactly when the flag is not set. -/
theorem finderOf_order (f : ComponentFilter) :
    (f.OrderOn = "" → (finderOf f).order = none) ∧
    (f.OrderOn ≠ "" →
      ∃ o, (finderOf f).order = some o ∧ o.Name = f.OrderOn ∧
        (o.Desc = true ↔ f.SortDir = "desc") ∧ (o.Raw = true ↔ f.SortDir ≠ "desc")) := by
  have hfin : (finderOf f).order = (whereAndOrder f).order := by
    simp only [finderOf, Finder.Offset, Finder.Limit]
    split_ifs <;> rfl
  rw [hfin, whereAndOrder_order]
  constructor
  · intro h
    simp [h]
  · intro h
    by_cases hs : f.SortDir = "desc"
    · exact ⟨⟨f.OrderOn, false, true⟩, by simp [h, hs], rfl, by simp [hs], by simp [hs]⟩
    · exact ⟨⟨f.OrderOn, true, false⟩, by simp [h, hs], rfl, by simp [hs], by simp [hs]⟩

/-- C6 at the failing input, on the store holding the kinds `Pod`, `Service`,
`Deployment`, `Pod` in that order. With `OrderOn` the column `kind` the result
is descending for `Sort` equal to `desc` and ascending for `Sort` empty, `asc`
or `DESC`, and with `OrderOn` empty the rows come in table order. But with
`OrderOn` the text `kind desc` the result is descending for `Sort` empty and
for `Sort` equal to `asc`, and for `Sort` equal to `desc` the query fails and
no row is returned. -/
theorem GetMeshModelComponents_order_follows_raw_text :
    (GetMeshModelComponents sqliteEngine podStore
      { ComponentFilter.zero with OrderOn := "kind", SortDir := "desc" }).map (fun c => c.Kind) =
        ["Service", "Pod", "Pod", "Deployment"] ∧
    (GetMeshModelComponents sqliteEngine podStore
      { ComponentFilter.zero with OrderOn := "kind" }).map (fun c => c.Kind) =
        ["Deployment", "Pod", "Pod", "Service"] ∧
    (GetMeshModelComponents sqliteEngine podStore
      { ComponentFilter.zero with OrderOn := "kind", SortDir := "asc" }).map (fun c => c.Kind) =
        ["Deployment", "Pod", "Pod", "Service"] ∧
    (GetMeshModelComponents sqliteEngine podStore
      { ComponentFilter.zero with OrderOn := "kind", SortDir := "DESC" }).map (fun c => c.Kind) =
        ["Deployment", "Pod", "Pod", "Service"] ∧
    (GetMeshModelComponents sqliteEngine podStore
      { ComponentFilter.zero with SortDir := "desc" }).map (fun c => c.Kind) =
        ["Pod", "Service", "Deployment", "Pod"] ∧
    (GetMeshModelComponents sqliteEngine podStore
      { ComponentFilter.zero with OrderOn := "kind desc" }).map (fun c => c.Kind) =
        ["Service", "Pod", "Pod", "Deployment"] ∧
    (GetMeshModelComponents sqliteEngine podStore
      { ComponentFilter.zero with OrderOn := "kind desc", SortDir := "asc" }).map
        (fun c => c.Kind) = ["Service", "Pod", "Pod", "Deployment"] ∧
    GetMeshModelComponents sqliteEngine podStore
      { ComponentFilter.zero with OrderOn := "kind desc", SortDir := "desc" } = [] := by
  refine ⟨by decide, by decide, by decide, by decide, by decide, by decide, by decide, rfl⟩

/-! ## Metadata: `GetComponentDefinitionDB` and `GetComponentDefinition` -/

/-- C7 as stated fails: the metadata with key `replicas` and the Go integer 3
serialises without error, and the round trip returns the number as a
`float64`, a mapping different from the original. -/
theorem metadata_round_trip_integer_counterexample :
    (json.Marshal replicasComponent.Metadata).2 = none ∧
    (replicasComponent.GetComponentDefinitionDB.GetComponentDefinition istioModel).Metadata =
      some [("replicas", GoVal.float64 (.finite 3))] ∧
    (replicasComponent.GetComponentDefinitionDB.GetComponentDefinition istioModel).Metadata ≠
      replicasComponent.Metadata := by
  refine ⟨rfl, rfl, ?_⟩
  intro h
  have h2 : (some [("replicas", GoVal.float64 (.finite 3))] : GoMap) =
      some [("replicas", GoVal.int 3)] := h
  simp at h2

/-- C7 amended (metadata round trip). For every metadata mapping whose values
are of the kinds the decoder produces (nil, booleans, finite `float64`,
strings, non-nil slices and maps of such), the nil and the empty mapping
included, the row built by `GetComponentDefinitionDB` converts back with
`GetComponentDefinition` to a component with the same metadata. The
hypothesis `nativeMap` also asks that every map lists its entries in
increasing key order, which is how a Go map is represented here. -/
theorem metadata_round_trip (c : ComponentDefinition) (model : Model)
    (h : json.nativeMap c.Metadata = true) :
    (c.GetComponentDefinitionDB.GetComponentDefinition model).Metadata = c.Metadata := by
  cases hmd : c.Metadata with
  | none =>
    simp [ComponentDefinitionDB.GetComponentDefinition,
      ComponentDefinition.GetComponentDefinitionDB, hmd, json.Marshal, json.Unmarshal]
  | some kvs =>
    rw [hmd] at h
    obtain ⟨js, e1, e2⟩ := json.decodeFields_encodeFields kvs h
    have e3 := e2 [] (by simp)
    simp [ComponentDefinitionDB.GetComponentDefinition,
      ComponentDefinition.GetComponentDefinitionDB, hmd, json.Marshal, json.Unmarshal, e1,
      ComponentDefinition.zero]
    simpa using e3

/-- C7 amended at concrete inputs: a nested mapping, the empty mapping and
the nil mapping come back unchanged. -/
theorem metadata_round_trip_witness :
    (labelledComponent.GetComponentDefinitionDB.GetComponentDefinition istioModel).Metadata =
      labelledComponent.Metadata ∧
    (({ labelledComponent with Metadata := some [] }).GetComponentDefinitionDB.GetComponentDefinition
      istioModel).Metadata = some [] ∧
    (({ labelledComponent with Metadata := none }).GetComponentDefinitionDB.GetComponentDefinition
      istioModel).Metadata = none :=
  ⟨metadata_round_trip labelledComponent istioModel (by decide),
   metadata_round_trip { labelledComponent with Metadata := some [] } istioModel rfl,
   metadata_round_trip { labelledComponent with Metadata := none } istioModel rfl⟩

/-- C9 as stated fails: for a row whose metadata bytes are the JSON text
`null`, `GetComponentDefinition` returns the nil mapping, not a non-nil empty
one. -/
theorem GetComponentDefinition_null_metadata_counterexample :
    nullRow.Metadata.isObject = false ∧
    (nullRow.GetComponentDefinition istioModel).Metadata = none ∧
    (nullRow.GetComponentDefinition istioModel).Metadata ≠ some [] := by
  refine ⟨rfl, rfl, ?_⟩
  intro h
  have h2 : (none : GoMap) = some [] := h
  simp at h2

/-- C9 amended (decode fallback). For every stored row whose metadata bytes
spell neither a JSON object nor `null` (empty bytes, malformed text, or a
number, string, boolean or array), `GetComponentDefinition` returns a
component whose metadata is the non-nil empty mapping, with `ID`, `Kind`,
`APIVersion`, `Format`, `DisplayName` and `Schema` copied from the row and
`Model` set to the supplied model; the decode error is dropped. -/
theorem GetComponentDefinition_decode_fallback (cmd : ComponentDefinitionDB) (model : Model)
    (hobj : cmd.Metadata.isObject = false) (hnull : cmd.Metadata.isNull = false) :
    (json.Unmarshal cmd.Metadata (some [])).2 ≠ none ∧
    cmd.GetComponentDefinition model =
      { toTypeMeta := cmd.toTypeMeta, ID := cmd.ID, DisplayName := cmd.DisplayName,
        Format := cmd.Format, Metadata := some [], Model := model, Schema := cmd.Schema,
        CreatedAt := 0, UpdatedAt := 0 } := by
  cases hp : cmd.Metadata with
  | raw b =>
    simp [ComponentDefinitionDB.GetComponentDefinition, ComponentDefinition.zero, hp,
      json.Unmarshal]
  | text j =>
    rw [hp] at hobj hnull
    cases j <;>
      simp [ComponentDefinitionDB.GetComponentDefinition, ComponentDefinition.zero, hp,
        json.Unmarshal, Payload.isObject, Payload.isNull] at hobj hnull ⊢

/-- C9 amended at concrete inputs: a row with empty metadata bytes and a row
whose metadata is the JSON array `[1]` both come back with the non-nil
empty mapping and the kind of the row. -/
theorem GetComponentDefinition_decode_fallback_witness :
    ((ComponentDefinitionDB.zero.GetComponentDefinition istioModel).Metadata = some [] ∧
      (ComponentDefinitionDB.zero.GetComponentDefinition istioModel).Model = istioModel) ∧
    ((arrayRow.GetComponentDefinition istioModel).Metadata = some [] ∧
      (arrayRow.GetComponentDefinition istioModel).Kind = "Gateway") := by
  constructor
  · rw [(GetComponentDefinition_decode_fallback ComponentDefinitionDB.zero istioModel rfl rfl).2]
    exact ⟨rfl, rfl⟩
  · rw [(GetComponentDefinition_decode_fallback arrayRow istioModel rfl rfl).2]
    exact ⟨rfl, rfl⟩
